import Mathlib

/-!
Verification development for the yc_search repository.

The numeric values the TypeScript code computes with IEEE doubles are
modelled as exact real numbers; SQLite integer columns are modelled as `Int`,
and JSON array columns (`tags`, `industries`, `regions`, embedding vectors)
are modelled in already-parsed form, i.e. as `List String` / `List ℝ`,
matching what `parseJsonArray` / `JSON.parse` produce on well-formed rows.

Two copies of the search module exist in the repository: `src/lib/search.ts`
(namespace `Lib` below) and `src/unnamed/part_004` (namespace `P4` below).
They differ in the filter shape (`P4` adds `batches`) and in the behaviour of
`semanticSearch` on a blank query.
-/

/-! ### Small JS / SQL modelling helpers -/

/-- JS `String.prototype.trim`: drop whitespace from both ends. -/
def jsTrim (s : String) : String :=
  ⟨((s.toList.dropWhile Char.isWhitespace).reverse.dropWhile Char.isWhitespace).reverse⟩

/-- ASCII lower-casing, the common core of SQLite `LOWER` and JS
`toLowerCase` on the ASCII range used by both sides of the `LIKE` compare. -/
def lowerStr (s : String) : String :=
  ⟨s.toList.map Char.toLower⟩

/-- `likeStar f s`: `f` accepts some suffix of `s` — the effect of a `%`
wildcard in front of the residual pattern decided by `f`. -/
def likeStar (f : List Char → Bool) : List Char → Bool
  | [] => f []
  | c :: s => f (c :: s) || likeStar f s

/-- SQLite `LIKE` pattern matching (no ESCAPE clause): `%` matches any
sequence, `_` matches any single character, anything else matches itself.
Case folding is not applied here because the queries in `search.ts` lower
both the pattern and the column before comparing. -/
def likeMatch : List Char → List Char → Bool
  | [], s => s.isEmpty
  | p :: ps, s =>
    if p == '%' then likeStar (likeMatch ps) s
    else
      match s with
      | [] => false
      | c :: s' => (p == '_' || p == c) && likeMatch ps s'

/-- `startsWith q s`: `q` is a prefix of `s` (plain character list version). -/
def startsWith : List Char → List Char → Bool
  | [], _ => true
  | _ :: _, [] => false
  | c :: q, d :: s => c == d && startsWith q s

/-- `containsSeq q s`: `q` occurs as a contiguous substring of `s`. -/
def containsSeq (q : List Char) : List Char → Bool
  | [] => startsWith q []
  | d :: s => startsWith q (d :: s) || containsSeq q s

/-- JS `Array.prototype.slice(s, e)` with signed indices clamped to the
array bounds (negative indices count from the end). -/
def jsSlice {α : Type} (l : List α) (s e : Int) : List α :=
  let len : Int := l.length
  let lo : Int := if s < 0 then max (len + s) 0 else min s len
  let hi : Int := if e < 0 then max (len + e) 0 else min e len
  (l.drop lo.toNat).take (hi - lo).toNat

/-- SQLite `LIMIT lim OFFSET off`: a negative offset acts as 0, a negative
limit means "no limit". -/
def sqlLimitOffset {α : Type} (l : List α) (lim off : Int) : List α :=
  let rest := l.drop (max off 0).toNat
  if lim < 0 then rest else rest.take lim.toNat

/-- `Number.MAX_SAFE_INTEGER`, the sentinel used for unparseable batch years. -/
def maxSafeInteger : Int := 9007199254740991

/-- JS `Number(x.toFixed(p))`: round to `p` decimal places, ties away from
zero toward the larger candidate (the ECMAScript `toFixed` rule). -/
noncomputable def roundFixed (p : ℕ) (x : ℝ) : ℝ :=
  (⌊x * (10 : ℝ) ^ p + 1 / 2⌋ : ℝ) / (10 : ℝ) ^ p

/-- UTC calendar year of a unix-epoch second count (SQLite
`strftime('%Y', ts, 'unixepoch')`, JS `getUTCFullYear`), via the standard
civil-from-days conversion. -/
def utcYear (secs : Int) : Int :=
  let days := Int.fdiv secs 86400
  let z := days + 719468
  let era := Int.fdiv z 146097
  let doe := z - era * 146097
  let yoe := Int.fdiv (doe - Int.fdiv doe 1460 + Int.fdiv doe 36524 - Int.fdiv doe 146096) 365
  let y := yoe + era * 400
  let doy := doe - (365 * yoe + Int.fdiv yoe 4 - Int.fdiv yoe 100)
  let mp := Int.fdiv (5 * doy + 2) 153
  let m := if mp < 10 then mp + 3 else mp - 9
  if m ≤ 2 then y + 1 else y

/-! ### Vector math (`cosineSimilarity` appears verbatim in
`src/lib/search.ts`, `src/unnamed/part_004` and `src/lib/company-details.ts`;
`dot`/`norm` in the embedding-map module have the same loop bodies). -/

/-- Sum of elementwise products accumulated by the `for` loops of
`cosineSimilarity` and of `dot` in the embedding-map module. -/
def dotList (a b : List ℝ) : ℝ :=
  ((a.zip b).map fun p => p.1 * p.2).sum

/-- `norm(v) = sqrt(dot(v, v))` from the embedding-map module. -/
noncomputable def normList (v : List ℝ) : ℝ :=
  Real.sqrt (dotList v v)

/-- `cosineSimilarity(a, b)`: 0 when lengths differ or the vectors are empty;
0 when either accumulated squared norm is 0 (the JS `!normA || !normB`
guard); otherwise `dot / (sqrt(normA) * sqrt(normB))`. -/
noncomputable def cosineSimilarity (a b : List ℝ) : ℝ :=
  if a.length ≠ b.length ∨ a.length = 0 then 0
  else
    let dot := dotList a b
    let normA := dotList a a
    let normB := dotList b b
    if normA = 0 ∨ normB = 0 then 0
    else dot / (Real.sqrt normA * Real.sqrt normB)

/-! ### Data model -/

/-- One row of the `companies` table, with JSON array columns in parsed form.
Only the columns the verified operations read are modelled. -/
structure Company where
  id : Int
  name : String
  one_liner : Option String
  long_description : Option String
  search_text : String
  batch : Option String
  stage : Option String
  industry : Option String
  launched_at : Option Int
  team_size : Option Int
  is_hiring : Bool
  nonprofit : Bool
  top_company : Bool
  tags : List String
  industries : List String
  regions : List String
deriving Repr, DecidableEq

/-- One row of `company_embeddings` (`company_id` is its PRIMARY KEY), with
the JSON `vector` column in parsed form. -/
structure EmbeddingRow where
  company_id : Int
  vector : List ℝ

/-- The read-only snapshot of the store a request computes against. -/
structure DB where
  companies : List Company
  embeddings : List EmbeddingRow

/-- Sort modes accepted by both search modules. -/
inductive SortMode where
  | relevance
  | newest
  | team_size
  | name
deriving Repr, DecidableEq

/-! ### Sort clauses (`buildSortClause`, identical in both modules) -/

/-- `ORDER BY x DESC NULLS LAST` on a nullable integer column. -/
def cmpIntDescNullsLast : Option Int → Option Int → Ordering
  | some a, some b => compare b a
  | some _, none => .lt
  | none, some _ => .gt
  | none, none => .eq

/-- `ORDER BY flag DESC` on a 0/1 column. -/
def cmpBoolDesc (a b : Bool) : Ordering :=
  compare (if b then (1 : Nat) else 0) (if a then (1 : Nat) else 0)

/-- The comparator corresponding to `buildSortClause(sort, query)`. -/
def sortClauseCmp (sort : SortMode) (trimmedQuery : String) (a b : Company) : Ordering :=
  match sort with
  | .newest =>
    (cmpIntDescNullsLast a.launched_at b.launched_at).then
      ((cmpBoolDesc a.top_company b.top_company).then (compare a.name b.name))
  | .team_size =>
    (cmpIntDescNullsLast a.team_size b.team_size).then
      ((cmpBoolDesc a.top_company b.top_company).then (compare a.name b.name))
  | .name => compare a.name b.name
  | .relevance =>
    if trimmedQuery.length > 0 then
      (cmpBoolDesc a.top_company b.top_company).then
        ((cmpIntDescNullsLast a.team_size b.team_size).then (compare a.name b.name))
    else
      (cmpBoolDesc a.top_company b.top_company).then (compare a.name b.name)

/-- Deterministic stand-in for the storage-level `ORDER BY` (ties between
equal sort keys are unspecified in SQL; no claim depends on them). -/
def sortRows (sort : SortMode) (trimmedQuery : String) (l : List Company) : List Company :=
  l.mergeSort fun a b => sortClauseCmp sort trimmedQuery a b ≠ .gt

/-! ### Text condition of keyword search -/

/-- The `LIKE '%' + lower(query) + '%'` test applied to one nullable column:
a NULL column never satisfies the clause. -/
def fieldLike (pat : List Char) : Option String → Bool
  | none => false
  | some s => likeMatch pat (lowerStr s).toList

/-- The four-column text condition pushed by `keywordSearch` for a non-empty
trimmed query. -/
def textCond (trimmedQuery : String) (c : Company) : Bool :=
  let pat := '%' :: ((lowerStr trimmedQuery).toList ++ ['%'])
  fieldLike pat (some c.name) || fieldLike pat c.one_liner ||
    fieldLike pat c.long_description || fieldLike pat (some c.search_text)

/-- Modelled from the spec: the case-insensitive substring text match the
spec and claim C2 describe, over name, one-liner, long description and the
flattened search-text field (compared with the `LIKE`-based `textCond` the
code actually runs). -/
def specTextMatch (query : String) (c : Company) : Bool :=
  let q := (lowerStr (jsTrim query)).toList
  containsSeq q (lowerStr c.name).toList ||
    (match c.one_liner with
     | none => false
     | some s => containsSeq q (lowerStr s).toList) ||
    (match c.long_description with
     | none => false
     | some s => containsSeq q (lowerStr s).toList) ||
    containsSeq q (lowerStr c.search_text).toList

/-! ### Search responses -/

/-- Return shape of `keywordSearch` (hydration keeps the modelled columns
unchanged: arrays are already parsed and flags already booleans here). -/
structure KeywordResponse where
  total : Nat
  page : Nat
  pageSize : Nat
  results : List Company
deriving Repr, DecidableEq

/-- A company row carrying a semantic `score`. -/
structure ScoredCompany where
  company : Company
  score : ℝ

/-- Return shape of the ranked branch of `semanticSearch`. -/
structure SemanticResponse where
  total : Nat
  page : Nat
  pageSize : Nat
  results : List ScoredCompany

/-- The comparator `(left, right) => right.score - left.score` sorts scores
descending: `left` may stay before `right` exactly when the comparator is
not positive. -/
noncomputable def scoreDescLe (l r : ScoredCompany) : Bool :=
  decide (r.score ≤ l.score)

/-- `INNER JOIN company_embeddings e ON e.company_id = c.id` over the rows
that satisfy the filter predicate, keeping the joined vector. -/
def semanticJoinRows (db : DB) (pred : Company → Bool) : List (Company × List ℝ) :=
  (db.companies.filter pred).flatMap fun c =>
    (db.embeddings.filter fun e => e.company_id == c.id).map fun e => (c, e.vector)

namespace Lib

/-- `SearchFilters` of `src/lib/search.ts` (no `batches` dimension).
The three optional booleans are modelled as `Bool`: in the source an absent
flag and `false` behave identically (both falsy). -/
structure SearchFilters where
  tags : List String
  industries : List String
  years : List Int
  stages : List String
  regions : List String
  isHiring : Bool
  nonprofit : Bool
  topCompany : Bool
deriving Repr, DecidableEq

/-- `SearchParams` of `src/lib/search.ts`. -/
structure SearchParams where
  query : String
  page : Nat
  pageSize : Nat
  sort : SortMode
  filters : SearchFilters
deriving Repr, DecidableEq

/-- The conjunction of WHERE fragments pushed by `buildFilterWhereClause` in
`src/lib/search.ts`, as a predicate on a company row.  A NULL column never
satisfies an equality or `IN` test, and an empty filter dimension pushes no
fragment at all. -/
def filterPred (f : SearchFilters) (c : Company) : Bool :=
  (!f.isHiring || c.is_hiring) &&
  (!f.nonprofit || c.nonprofit) &&
  (!f.topCompany || c.top_company) &&
  (f.years.isEmpty ||
    (match c.launched_at with
     | none => false
     | some ts => f.years.any fun y => utcYear ts == y)) &&
  (f.tags.isEmpty || f.tags.any fun t => c.tags.contains t) &&
  (f.industries.isEmpty ||
    f.industries.any fun v => c.industry == some v || c.industries.contains v) &&
  (f.stages.isEmpty ||
    (match c.stage with
     | none => false
     | some s => f.stages.contains s)) &&
  (f.regions.isEmpty || f.regions.any fun r => c.regions.contains r)

/-- The full WHERE clause of `keywordSearch`: text condition (only for a
non-empty trimmed query) AND the filter fragments. -/
def keywordWhere (trimmedQuery : String) (f : SearchFilters) (c : Company) : Bool :=
  (trimmedQuery.isEmpty || textCond trimmedQuery c) && filterPred f c

/-- `keywordSearch` of `src/lib/search.ts`: the COUNT query gives `total`,
the row query applies the same WHERE, the sort clause and
`LIMIT pageSize OFFSET (page-1)*pageSize`. -/
def keywordSearch (db : DB) (params : SearchParams) : KeywordResponse :=
  let query := jsTrim params.query
  let matched := db.companies.filter (keywordWhere query params.filters)
  let sorted := sortRows params.sort query matched
  { total := matched.length
    page := params.page
    pageSize := params.pageSize
    results := sqlLimitOffset sorted (params.pageSize : Int)
      (((params.page : Int) - 1) * (params.pageSize : Int)) }

/-- `semanticSearch` of `src/lib/search.ts`.  A blank query returns the
empty payload before the embedding provider is consulted; otherwise the
query is embedded (`embed` models the provider), every filtered company
with a stored vector is scored with `cosineSimilarity`, the scored list is
sorted by descending score, paginated in memory with `slice`, and the
returned scores are rounded to 4 decimal places. -/
noncomputable def semanticSearch (db : DB) (params : SearchParams)
    (embed : String → List ℝ) : SemanticResponse :=
  let query := jsTrim params.query
  if query = "" then
    { total := 0, page := params.page, pageSize := params.pageSize, results := [] }
  else
    let queryVector := embed query
    let rows := semanticJoinRows db (filterPred params.filters)
    let scored := rows.map fun r =>
      ({ company := r.1, score := cosineSimilarity queryVector r.2 } : ScoredCompany)
    let sorted := scored.mergeSort scoreDescLe
    let start := ((params.page : Int) - 1) * (params.pageSize : Int)
    let paged := jsSlice sorted start (start + (params.pageSize : Int))
    { total := scored.length
      page := params.page
      pageSize := params.pageSize
      results := paged.map fun r => { r with score := roundFixed 4 r.score } }

end Lib

namespace P4

/-- `SearchFilters` of `src/unnamed/part_004` (adds the `batches`
dimension). -/
structure SearchFilters where
  tags : List String
  industries : List String
  batches : List String
  years : List Int
  stages : List String
  regions : List String
  isHiring : Bool
  nonprofit : Bool
  topCompany : Bool
deriving Repr, DecidableEq

/-- `SearchParams` of `src/unnamed/part_004`. -/
structure SearchParams where
  query : String
  page : Nat
  pageSize : Nat
  sort : SortMode
  filters : SearchFilters
deriving Repr, DecidableEq

/-- `buildFilterWhereClause` of `src/unnamed/part_004`, as a predicate. -/
def filterPred (f : SearchFilters) (c : Company) : Bool :=
  (!f.isHiring || c.is_hiring) &&
  (!f.nonprofit || c.nonprofit) &&
  (!f.topCompany || c.top_company) &&
  (f.batches.isEmpty ||
    (match c.batch with
     | none => false
     | some b => f.batches.contains b)) &&
  (f.years.isEmpty ||
    (match c.launched_at with
     | none => false
     | some ts => f.years.any fun y => utcYear ts == y)) &&
  (f.tags.isEmpty || f.tags.any fun t => c.tags.contains t) &&
  (f.industries.isEmpty ||
    f.industries.any fun v => c.industry == some v || c.industries.contains v) &&
  (f.stages.isEmpty ||
    (match c.stage with
     | none => false
     | some s => f.stages.contains s)) &&
  (f.regions.isEmpty || f.regions.any fun r => c.regions.contains r)

/-- `buildKeywordAndFilterSql` of `src/unnamed/part_004`, as a predicate. -/
def keywordWhere (trimmedQuery : String) (f : SearchFilters) (c : Company) : Bool :=
  (trimmedQuery.isEmpty || textCond trimmedQuery c) && filterPred f c

/-- `keywordSearch` of `src/unnamed/part_004` (same shape as the `Lib`
variant, with this module's filters). -/
def keywordSearch (db : DB) (params : SearchParams) : KeywordResponse :=
  let query := jsTrim params.query
  let matched := db.companies.filter (keywordWhere query params.filters)
  let sorted := sortRows params.sort query matched
  { total := matched.length
    page := params.page
    pageSize := params.pageSize
    results := sqlLimitOffset sorted (params.pageSize : Int)
      (((params.page : Int) - 1) * (params.pageSize : Int)) }

/-- The union type `semanticSearch` of `src/unnamed/part_004` returns: on a
blank query it falls back to the keyword payload (rows without scores),
otherwise it returns the ranked payload. -/
inductive SemanticResult where
  | fromKeyword (r : KeywordResponse)
  | ranked (r : SemanticResponse)

/-- The `total` field common to both payload shapes. -/
def SemanticResult.total : SemanticResult → Nat
  | .fromKeyword r => r.total
  | .ranked r => r.total

/-- Number of result rows in either payload shape. -/
def SemanticResult.resultsLength : SemanticResult → Nat
  | .fromKeyword r => r.results.length
  | .ranked r => r.results.length

/-- `semanticSearch` of `src/unnamed/part_004`: on a blank query it returns
`keywordSearch(params)` ("Keep default semantic view behavior aligned with
keyword mode"), otherwise the same ranked computation as the `Lib`
variant, with this module's filter predicate. -/
noncomputable def semanticSearch (db : DB) (params : SearchParams)
    (embed : String → List ℝ) : SemanticResult :=
  let query := jsTrim params.query
  if query = "" then
    .fromKeyword (keywordSearch db params)
  else
    let queryVector := embed query
    let rows := semanticJoinRows db (filterPred params.filters)
    let scored := rows.map fun r =>
      ({ company := r.1, score := cosineSimilarity queryVector r.2 } : ScoredCompany)
    let sorted := scored.mergeSort scoreDescLe
    let start := ((params.page : Int) - 1) * (params.pageSize : Int)
    let paged := jsSlice sorted start (start + (params.pageSize : Int))
    .ranked
      { total := scored.length
        page := params.page
        pageSize := params.pageSize
        results := paged.map fun r => { r with score := roundFixed 4 r.score } }

end P4

/-! ### JS `Map` modelled as an ordered association list -/

/-- `Map.get`: the value at the first (and, under the preserved key-nodup
invariant, only) entry for `k`. -/
def mapGet? {V : Type} (m : List (String × V)) (k : String) : Option V :=
  (m.find? fun p => p.1 == k).map (·.2)

/-- `Map.set`: update the existing entry in place, else append at the end
(JS `Map` preserves insertion order). -/
def mapSet {V : Type} (m : List (String × V)) (k : String) (v : V) : List (String × V) :=
  match m with
  | [] => [(k, v)]
  | (k', v') :: t => if k' == k then (k, v) :: t else (k', v') :: mapSet t k v

/-- `counts.set(k, (counts.get(k) ?? 0) + 1)`, the tally step used by
`getFacets` and `getBatchAnalytics`. -/
def bump (m : List (String × Nat)) (k : String) : List (String × Nat) :=
  mapSet m k ((mapGet? m k).getD 0 + 1)

/-! ### Facets (`getFacets`, identical in both search modules) -/

/-- `formatFacet`: entries sorted by descending count. -/
def formatFacet (m : List (String × Nat)) : List (String × Nat) :=
  m.mergeSort fun l r => decide (r.2 ≤ l.2)

/-- Facets payload (year values kept as strings via `toString` for a uniform
entry type; the years facet re-sort compares the numeric value). -/
structure Facets where
  tags : List (String × Nat)
  industries : List (String × Nat)
  regions : List (String × Nat)
  stages : List (String × Nat)
  years : List (Int × Nat)
deriving Repr, DecidableEq

/-- Year tally of `getFacets` (`launched_at` of 0 is falsy in JS and is
skipped just like NULL). -/
def yearBump (m : List (Int × Nat)) (k : Int) : List (Int × Nat) :=
  match m with
  | [] => [(k, 1)]
  | (k', v') :: t => if k' == k then (k, v' + 1) :: t else (k', v') :: yearBump t k

namespace Lib

/-- `getFacets` of `src/lib/search.ts`: per-occurrence tallies over every
company row, formatted by descending count; the years facet is re-sorted by
descending year value afterwards. -/
def getFacets (db : DB) : Facets :=
  let tagCounts := db.companies.foldl (fun m c => c.tags.foldl bump m) []
  let industryCounts := db.companies.foldl (fun m c => c.industries.foldl bump m) []
  let regionCounts := db.companies.foldl (fun m c => c.regions.foldl bump m) []
  let stageCounts := db.companies.foldl (fun m c =>
    match c.stage with
    | none => m
    | some s => bump m s) []
  let yearCounts := db.companies.foldl (fun m c =>
    match c.launched_at with
    | none => m
    | some ts => if ts == 0 then m else yearBump m (utcYear ts)) []
  { tags := formatFacet tagCounts
    industries := formatFacet industryCounts
    regions := formatFacet regionCounts
    stages := formatFacet stageCounts
    years := (yearCounts.mergeSort fun l r => decide (r.2 ≤ l.2)).mergeSort
      fun l r => decide (r.1 ≤ l.1) }

end Lib

/-! ### Batch analytics (`src/unnamed/part_004`) -/

/-- The `colorBy` dimension of `getBatchAnalytics`. -/
inductive AnalyticsColorBy where
  | none
  | tags
  | industries
deriving Repr, DecidableEq

/-- The `(year, seasonOrder)` sort key of `batchSortKey`. -/
structure BatchKey where
  year : Option Int
  seasonOrder : Int
deriving Repr, DecidableEq

/-- `batch.match(/^([WSF])(\d{2})$/i)` head test. -/
def isCompactSeason (c : Char) : Bool :=
  let u := c.toUpper
  u == 'W' || u == 'S' || u == 'F'

/-- Numeric value of a two-or-four digit group. -/
def digitsVal (l : List Char) : Int :=
  l.foldl (fun acc c => acc * 10 + (c.toNat - '0'.toNat : Int)) 0

/-- `batchSortKey` of `src/unnamed/part_004`: the compact form maps
`W/S/F` to season orders `1/2/3`, the named form maps
Winter/Spring/Summer/Fall to `1/2/3/4`; anything else gets
`(null, 99)`. -/
def batchSortKey (batch : String) : BatchKey :=
  match batch.toList with
  | [c, d1, d2] =>
    if isCompactSeason c && d1.isDigit && d2.isDigit then
      { year := some (2000 + digitsVal [d1, d2])
        seasonOrder := if c.toUpper == 'W' then 1 else if c.toUpper == 'S' then 2 else 3 }
    else { year := Option.none, seasonOrder := 99 }
  | cs =>
    let lower := cs.map Char.toLower
    let namedKey (season : String) (ord : Int) : Option BatchKey :=
      if startsWith season.toList lower then
        let rest := lower.drop season.length
        let ws := rest.takeWhile Char.isWhitespace
        let digits := rest.drop ws.length
        if ws.length > 0 && digits.length == 4 && digits.all Char.isDigit then
          some { year := some (digitsVal (cs.drop (season.length + ws.length))),
                 seasonOrder := ord }
        else Option.none
      else Option.none
    (((namedKey "winter" 1).orElse fun _ => (namedKey "spring" 2).orElse fun _ =>
      (namedKey "summer" 3).orElse fun _ => namedKey "fall" 4).getD
      { year := Option.none, seasonOrder := 99 })

/-- `firstCategory`: the first stored tag or industry, `"Unspecified"` when
the list is empty (the `"none"` case is unreachable behind the
`colorBy !== "none"` guard). -/
def firstCategory (c : Company) (colorBy : AnalyticsColorBy) : String :=
  match colorBy with
  | .tags => c.tags.headD "Unspecified"
  | .industries => c.industries.headD "Unspecified"
  | .none => "Unspecified"

/-- The per-batch accumulator of `getBatchAnalytics`. -/
structure BatchAggregate where
  batch : String
  year : Option Int
  seasonOrder : Int
  total : Nat
  categoryCounts : List (String × Nat)
deriving Repr, DecidableEq

/-- One iteration of the aggregation loop of `getBatchAnalytics`. -/
def analyticsStep (colorBy : AnalyticsColorBy)
    (acc : List (String × BatchAggregate) × List (String × Nat)) (row : Company) :
    List (String × BatchAggregate) × List (String × Nat) :=
  let batch := row.batch.getD "Unspecified"
  let key := batchSortKey batch
  let existing := (mapGet? acc.1 batch).getD
    { batch := batch, year := key.year, seasonOrder := key.seasonOrder,
      total := 0, categoryCounts := [] }
  let existing := { existing with total := existing.total + 1 }
  if colorBy == .none then
    (mapSet acc.1 batch existing, acc.2)
  else
    let category := firstCategory row colorBy
    (mapSet acc.1 batch
       { existing with categoryCounts := bump existing.categoryCounts category },
     bump acc.2 category)

/-- Lexicographic character-list comparison, the model of
`left.localeCompare(right) <= 0` on batch labels. -/
def charListLe : List Char → List Char → Bool
  | [], _ => true
  | _ :: _, [] => false
  | c :: cs, d :: ds => if c = d then charListLe cs ds else decide (c < d)

/-- The comparator of `sortedBatches` (`cmp(left, right) <= 0`): missing
years take the `MAX_SAFE_INTEGER` sentinel, then season order, then the
label text. -/
def aggLe (a b : BatchAggregate) : Bool :=
  let ya := a.year.getD maxSafeInteger
  let yb := b.year.getD maxSafeInteger
  if ya ≠ yb then decide (ya < yb)
  else if a.seasonOrder ≠ b.seasonOrder then decide (a.seasonOrder < b.seasonOrder)
  else charListLe a.batch.toList b.batch.toList

/-- A JS value stored in a chart-row object. -/
inductive JsVal where
  | num (n : Int)
  | str (s : String)
  | null
deriving Repr, DecidableEq

/-- The `Record<string, number | string | null>` chart row of the source:
an insertion-ordered string-keyed object in which assigning to an existing
key overwrites it in place (`mapSet`), so a category field named
`"batch"`, `"year"`, `"total"` or `"Other"` collides with those keys
exactly as in JS. -/
abbrev JsObj := List (String × JsVal)

/-- The numeric value of a chart-row object at a key (0 when the key is
absent or non-numeric). -/
def objNum (r : JsObj) (k : String) : Int :=
  match mapGet? r k with
  | some (JsVal.num n) => n
  | _ => 0

/-- The batch label of an emitted chart row: the string at its `"batch"`
key (the empty label when that key was clobbered by a numeric category
field of the same name). -/
def rowBatchLabel (r : JsObj) : String :=
  match mapGet? r "batch" with
  | some (JsVal.str s) => s
  | _ => ""

/-- The body of the per-category loop of `getBatchAnalytics`:
`row[category] = value; assigned += value` with
`value = categoryCounts.get(category) ?? 0`. -/
def categoryStep (cc : List (String × Nat)) (acc : JsObj × Nat) (cat : String) :
    JsObj × Nat :=
  let value := (mapGet? cc cat).getD 0
  (mapSet acc.1 cat (JsVal.num (value : Int)), acc.2 + value)

/-- Payload of `getBatchAnalytics`. -/
structure AnalyticsResult where
  colorBy : AnalyticsColorBy
  totalCompanies : Nat
  series : List String
  rows : List JsObj
deriving Repr, DecidableEq

namespace P4

/-- The candidate row resolution of `getBatchAnalytics` (the `rows` local
of the source): the explicit id subset when given — deliberately no rows at
all for the explicit empty subset — else the keyword-and-filter WHERE
clause over the corpus. -/
def analyticsRows (db : DB) (params : SearchParams)
    (companyIdSubset : Option (List Int)) : List Company :=
  match companyIdSubset with
  | some subset =>
    if subset.length > 0 then
      let ids := subset.eraseDups
      db.companies.filter fun c => ids.contains c.id
    else []
  | Option.none =>
    db.companies.filter (keywordWhere (jsTrim params.query) params.filters)

/-- The per-batch row emission of `getBatchAnalytics`: the row object is
seeded with the `batch`, `year` and `total` keys, then (when a color
dimension is active) each selected category is written with
`row[category] = value` — clobbering any same-named key already present —
and finally `row.Other` is set to the clamped remainder. -/
def emitRow (colorBy : AnalyticsColorBy) (topCategories : List String)
    (a : BatchAggregate) : JsObj :=
  let row : JsObj :=
    [("batch", JsVal.str a.batch),
     ("year", match a.year with | some y => JsVal.num y | Option.none => JsVal.null),
     ("total", JsVal.num (a.total : Int))]
  if colorBy == .none then row
  else
    let stepped := topCategories.foldl (categoryStep a.categoryCounts) (row, 0)
    mapSet stepped.1 "Other"
      (JsVal.num (max 0 ((a.total : Int) - (stepped.2 : Int))))

/-- `getBatchAnalytics` of `src/unnamed/part_004`: candidates are grouped
by batch label, globally tallied by first category when a color dimension
is active, and emitted in comparator order with the top-N categories and an
`Other` remainder per row. -/
def getBatchAnalytics (db : DB) (params : SearchParams)
    (colorBy : AnalyticsColorBy) (topN : Nat)
    (companyIdSubset : Option (List Int)) : AnalyticsResult :=
  let rows := analyticsRows db params companyIdSubset
  let agg := rows.foldl (analyticsStep colorBy) ([], [])
  let sortedBatches := (agg.1.map (·.2)).mergeSort aggLe
  let topCategories :=
    if colorBy == .none then []
    else ((agg.2.mergeSort fun l r => decide (r.2 ≤ l.2)).take topN).map (·.1)
  let chartRows : List JsObj := sortedBatches.map (emitRow colorBy topCategories)
  { colorBy := colorBy
    totalCompanies := rows.length
    series := if colorBy == .none then ["total"] else topCategories ++ ["Other"]
    rows := chartRows }

end P4

/-! ### Similar companies (`src/lib/company-details.ts`) -/

/-- One output row of `getSimilarCompanies`: the projected company columns
(id, name, slug, one-liner, industry, batch, stage, logo, website, url are
all carried by `company` here) plus the rounded `similarity`. -/
structure SimilarRow where
  company : Company
  similarity : ℝ

/-- The comparator `(left, right) => right.similarity - left.similarity`. -/
noncomputable def similarityDescLe (l r : SimilarRow) : Bool :=
  decide (r.similarity ≤ l.similarity)

/-- `getSimilarCompanies(companyId, limit)` of `src/lib/company-details.ts`:
no stored vector for the target yields no rows; otherwise every other
company with a stored vector is scored against the target with
`cosineSimilarity`, sorted by descending similarity, cut to `limit` rows
with `slice(0, limit)`, and the similarities are rounded to 4 decimal
places. -/
noncomputable def getSimilarCompanies (db : DB) (companyId : Int) (limit : Nat) :
    List SimilarRow :=
  match db.embeddings.find? fun e => e.company_id == companyId with
  | none => []
  | some target =>
    let candidates := (db.companies.filter fun c => c.id != companyId).flatMap fun c =>
      (db.embeddings.filter fun e => e.company_id == c.id).map fun e => (c, e.vector)
    let scored := candidates.map fun p =>
      ({ company := p.1, similarity := cosineSimilarity target.vector p.2 } : SimilarRow)
    let sorted := scored.mergeSort similarityDescLe
    (sorted.take limit).map fun r => { r with similarity := roundFixed 4 r.similarity }

/-! ### Embedding map (`src/lib/embedding-map.ts`, the second part of the
`snapshot-utils` source bundle) -/

/-- Elementwise sum of two equally long vectors. -/
def vecAdd (a b : List ℝ) : List ℝ :=
  a.zipWith (· + ·) b

/-- `normalize(values)` (renamed: Mathlib already declares `normalize`):
divide by the norm, substituting 1 for a zero norm. -/
noncomputable def normalizeVec (values : List ℝ) : List ℝ :=
  let n := normList values
  let n' := if n = 0 then 1 else n
  values.map (· / n')

/-- `matVecCentered(embeddings, vector)`: the vector of row-by-vector dot
products. -/
def matVecCentered (embeddings : List (List ℝ)) (vector : List ℝ) : List ℝ :=
  embeddings.map fun row => dotList row vector

/-- `transposeMatVec(embeddings, values)`: accumulate `values[i] * row_i`
into a zero vector of the first row's width. -/
def transposeMatVec (embeddings : List (List ℝ)) (values : List ℝ) : List ℝ :=
  let d := (embeddings.headD []).length
  (embeddings.zip values).foldl
    (fun acc p => vecAdd acc (p.1.map fun x => p.2 * x))
    (List.replicate d 0)

/-- One step of `powerIteration`: project, back-project, optionally deflate
against the first component, renormalize. -/
noncomputable def powerStep (embeddings : List (List ℝ))
    (orthogonalTo : Option (List ℝ)) (v : List ℝ) : List ℝ :=
  let w := transposeMatVec embeddings (matVecCentered embeddings v)
  let w :=
    match orthogonalTo with
    | none => w
    | some o =>
      let projection := dotList w o
      w.zipWith (fun x oi => x - projection * oi) o
  normalizeVec w

/-- `powerIteration(embeddings, iterations, orthogonalTo?)` with its fixed
deterministic seed (every third dimension 1, others 0.5). -/
noncomputable def powerIteration (embeddings : List (List ℝ)) (iterations : Nat)
    (orthogonalTo : Option (List ℝ)) : List ℝ :=
  let d := (embeddings.headD []).length
  let seed := (List.range d).map fun i => if i % 3 == 0 then (1 : ℝ) else 0.5
  (List.range iterations).foldl (fun v _ => powerStep embeddings orthogonalTo v) seed

/-- `centerEmbeddings(vectors)`: subtract the per-dimension mean; the empty
set is returned unchanged. -/
noncomputable def centerEmbeddings (vectors : List (List ℝ)) : List (List ℝ) :=
  match vectors with
  | [] => []
  | v :: _ =>
    let dimension := v.length
    let sums := vectors.foldl vecAdd (List.replicate dimension 0)
    let means := sums.map (· / (vectors.length : ℝ))
    vectors.map fun vec => vec.zipWith (· - ·) means

/-- An `(id, name, vector)` row of the embedding-map SELECT, with the JSON
vector already parsed (the `JSON.parse` try/catch drops malformed rows
before this model sees them). -/
structure NamedEmbeddingRow where
  id : Int
  name : String
  vector : List ℝ

/-- A projected point. -/
structure ProjPoint where
  id : Int
  name : String
  x : ℝ
  y : ℝ

/-- `parseEmbeddingRows`: keep rows whose vector has more than one entry,
yielding the vectors and the `(id, name)` labels in row order. -/
def parseEmbeddingRows (rows : List NamedEmbeddingRow) :
    List (List ℝ) × List (Int × String) :=
  let kept := rows.filter fun r => 1 < r.vector.length
  (kept.map (·.vector), kept.map fun r => (r.id, r.name))

/-- `computePcaProjection`: center, compute two power-iteration components
(the second deflated against the first), project, round to 6 decimal
places. -/
noncomputable def computePcaProjection (rows : List NamedEmbeddingRow) :
    List ProjPoint :=
  let parsed := parseEmbeddingRows rows
  match parsed.1 with
  | [] => []
  | _ :: _ =>
    let centered := centerEmbeddings parsed.1
    let component1 := powerIteration centered 14 Option.none
    let component2 := powerIteration centered 14 (some component1)
    let xValues := matVecCentered centered component1
    let yValues := matVecCentered centered component2
    (parsed.2.zip (xValues.zip yValues)).map fun p =>
      { id := p.1.1, name := p.1.2,
        x := roundFixed 6 p.2.1, y := roundFixed 6 p.2.2 }

/-- The `FROM company_embeddings e INNER JOIN companies c` SELECT feeding
the projection. -/
def embeddingJoinRows (db : DB) : List NamedEmbeddingRow :=
  db.embeddings.flatMap fun e =>
    (db.companies.filter fun c => c.id == e.company_id).map fun c =>
      { id := c.id, name := c.name, vector := e.vector }

/-- `loadProjection` without the process-wide cache: the cache is a pure
memo keyed by a data-version signature, so against a fixed snapshot it
returns exactly this recomputation. -/
noncomputable def loadProjection (db : DB) : List ProjPoint :=
  computePcaProjection (embeddingJoinRows db)

/-- The `selected | similar` group label. -/
inductive PointGroup where
  | selected
  | similar
deriving Repr, DecidableEq

/-- A projection point with its group label. -/
structure GroupedPoint where
  point : ProjPoint
  group : PointGroup

/-- Payload of `getCompanyEmbeddingMap`. -/
structure EmbeddingMapResult where
  method : String
  selectedCompanyId : Int
  points : List GroupedPoint

/-- `getCompanyEmbeddingMap(companyId, similarLimit)`: `null` when the
projection holds no point for the company; otherwise the projection points
whose id is the selected company or one of its similar-company ids, each
tagged with its group. -/
noncomputable def getCompanyEmbeddingMap (db : DB) (companyId : Int)
    (similarLimit : Nat) : Option EmbeddingMapResult :=
  let points := loadProjection db
  match points.find? fun p => p.id == companyId with
  | none => none
  | some _ =>
    let similarIds := (getSimilarCompanies db companyId similarLimit).map (·.company.id)
    let mappedPoints := (points.filter fun p =>
        p.id == companyId || similarIds.contains p.id).map fun p =>
      ({ point := p,
         group := if p.id == companyId then PointGroup.selected else PointGroup.similar }
        : GroupedPoint)
    some { method := "PCA", selectedCompanyId := companyId, points := mappedPoints }

/-! ### Supporting lemmas: vector math -/

lemma dotList_nil_right (a : List ℝ) : dotList a [] = 0 := by
  cases a <;> simp [dotList]

lemma dotList_cons (x y : ℝ) (t u : List ℝ) :
    dotList (x :: t) (y :: u) = x * y + dotList t u := by
  simp [dotList]

lemma dotList_comm (a b : List ℝ) : dotList a b = dotList b a := by
  induction a generalizing b with
  | nil => cases b <;> simp [dotList]
  | cons x t ih =>
    cases b with
    | nil => simp [dotList]
    | cons y u => rw [dotList_cons, dotList_cons, ih, mul_comm]

lemma dotList_self_eq (v : List ℝ) : dotList v v = (v.map fun x => x * x).sum := by
  induction v with
  | nil => simp [dotList]
  | cons x t ih => rw [dotList_cons, ih]; simp

lemma dotList_self_nonneg (v : List ℝ) : 0 ≤ dotList v v := by
  rw [dotList_self_eq]
  exact List.sum_nonneg fun x hx => by
    obtain ⟨y, _, rfl⟩ := List.mem_map.mp hx
    exact mul_self_nonneg y

lemma dotList_self_pos {v : List ℝ} {x : ℝ} (hx : x ∈ v) (hne : x ≠ 0) :
    0 < dotList v v := by
  rw [dotList_self_eq]
  have hmem : x * x ∈ v.map fun y => y * y := List.mem_map.mpr ⟨x, hx, rfl⟩
  have hnn : ∀ y ∈ v.map fun z => z * z, (0 : ℝ) ≤ y := by
    intro y hy
    obtain ⟨z, _, rfl⟩ := List.mem_map.mp hy
    exact mul_self_nonneg z
  exact lt_of_lt_of_le (mul_self_pos.mpr hne) (List.single_le_sum hnn _ hmem)

lemma normList_eq_zero {v : List ℝ} (h : normList v = 0) : dotList v v = 0 :=
  le_antisymm (Real.sqrt_eq_zero'.mp h) (dotList_self_nonneg v)

lemma cosineSimilarity_def2 (a b : List ℝ) :
    cosineSimilarity a b =
      if a.length ≠ b.length ∨ a.length = 0 ∨ dotList a a = 0 ∨ dotList b b = 0 then 0
      else dotList a b / (Real.sqrt (dotList a a) * Real.sqrt (dotList b b)) := by
  simp only [cosineSimilarity]
  split_ifs <;> tauto

/-! ### Claim theorems: C6 -/

/-- Claim C6: `cosineSimilarity(v, v) = 1` for every non-zero vector `v`
(exact over the reals that model the floats); `cosineSimilarity` is
symmetric; and it returns exactly 0 whenever the two lengths differ, either
vector is empty, or either vector has zero norm. -/
theorem cosineSimilarity_spec :
    (∀ v : List ℝ, (∃ x ∈ v, x ≠ 0) → cosineSimilarity v v = 1) ∧
    (∀ a b : List ℝ, cosineSimilarity a b = cosineSimilarity b a) ∧
    (∀ a b : List ℝ,
      a.length ≠ b.length ∨ a = [] ∨ b = [] ∨ normList a = 0 ∨ normList b = 0 →
      cosineSimilarity a b = 0) := by
  refine ⟨?_, ?_, ?_⟩
  · intro v hv
    obtain ⟨x, hx, hne⟩ := hv
    have hpos : 0 < dotList v v := dotList_self_pos hx hne
    rw [cosineSimilarity_def2, if_neg (by
      rintro (h | h | h | h)
      · exact h rfl
      · rw [List.length_eq_zero] at h
        subst h
        simp at hx
      · exact absurd h (ne_of_gt hpos)
      · exact absurd h (ne_of_gt hpos))]
    rw [Real.mul_self_sqrt (le_of_lt hpos)]
    exact div_self (ne_of_gt hpos)
  · intro a b
    rw [cosineSimilarity_def2, cosineSimilarity_def2]
    split_ifs with h1 h2 h3
    · rfl
    · exfalso
      push_neg at h2
      obtain ⟨e1, e2, e3, e4⟩ := h2
      rcases h1 with h | h | h | h
      · exact h e1.symm
      · exact e2 (e1.trans h)
      · exact e4 h
      · exact e3 h
    · exfalso
      push_neg at h1
      obtain ⟨e1, e2, e3, e4⟩ := h1
      rcases h3 with h | h | h | h
      · exact h e1.symm
      · exact e2 (e1.trans h)
      · exact e4 h
      · exact e3 h
    · rw [dotList_comm a b, mul_comm]
  · intro a b h
    rw [cosineSimilarity_def2]
    apply if_pos
    rcases h with h | h | h | h | h
    · exact Or.inl h
    · exact Or.inr (Or.inl (by simp [h]))
    · by_cases hz : a.length = 0
      · exact Or.inr (Or.inl hz)
      · exact Or.inl (by simp [h]; simpa using hz)
    · exact Or.inr (Or.inr (Or.inl (normList_eq_zero h)))
    · exact Or.inr (Or.inr (Or.inr (normList_eq_zero h)))

/-- Witness for C6 at concrete vectors. -/
theorem cosineSimilarity_spec_witness :
    cosineSimilarity [(3 : ℝ), 4] [(3 : ℝ), 4] = 1 ∧
    cosineSimilarity [(1 : ℝ)] [(1 : ℝ), 2] = 0 :=
  ⟨cosineSimilarity_spec.1 [3, 4] ⟨3, by simp, by norm_num⟩,
   cosineSimilarity_spec.2.2 [1] [1, 2] (Or.inl (by simp))⟩

/-! ### Claim theorems: C7 -/

/-- Claim C7: the all-empty filter set (every list dimension empty, every
boolean flag false/absent) accepts every company, in both copies of
`buildFilterWhereClause`; in particular a false flag never excludes
companies whose own flag is false. -/
theorem filterPred_identity :
    ∀ c : Company,
      Lib.filterPred
        { tags := [], industries := [], years := [], stages := [], regions := [],
          isHiring := false, nonprofit := false, topCompany := false } c = true ∧
      P4.filterPred
        { tags := [], industries := [], batches := [], years := [], stages := [],
          regions := [], isHiring := false, nonprofit := false, topCompany := false } c
        = true := by
  intro c
  exact ⟨by simp [Lib.filterPred], by simp [P4.filterPred]⟩

/-! ### Supporting lemmas: LIKE patterns vs plain substring search -/

lemma likeStar_true_of_nil {f : List Char → Bool} (hf : f [] = true) :
    ∀ s : List Char, likeStar f s = true := by
  intro s
  induction s with
  | nil => simpa [likeStar] using hf
  | cons c s ih => simp [likeStar, ih]

lemma likeStar_congr {f g : List Char → Bool} (h : ∀ t, f t = g t) :
    ∀ s, likeStar f s = likeStar g s := by
  intro s
  induction s with
  | nil => simp [likeStar, h]
  | cons c s ih => simp [likeStar, ih, h]

lemma likeMatch_percent_cons (ps : List Char) (s : List Char) :
    likeMatch ('%' :: ps) s = likeStar (likeMatch ps) s := by
  simp [likeMatch]

lemma likeMatch_plain_percent (q : List Char) (h1 : '%' ∉ q) (h2 : '_' ∉ q) :
    ∀ s, likeMatch (q ++ ['%']) s = startsWith q s := by
  induction q with
  | nil =>
    intro s
    simp only [List.nil_append, startsWith]
    rw [likeMatch_percent_cons]
    exact likeStar_true_of_nil (by simp [likeMatch]) s
  | cons c q ih =>
    intro s
    have hc1 : c ≠ '%' := fun h => h1 (h ▸ List.mem_cons_self c q)
    have hc2 : c ≠ '_' := fun h => h2 (h ▸ List.mem_cons_self c q)
    cases s with
    | nil => simp [likeMatch, startsWith, hc1]
    | cons d s =>
      simp only [List.cons_append, likeMatch, startsWith,
        beq_iff_eq, if_neg hc1, List.append_eq]
      rw [ih (fun h => h1 (List.mem_cons_of_mem c h))
        (fun h => h2 (List.mem_cons_of_mem c h)) s]
      rw [beq_eq_false_iff_ne.mpr hc2]
      simp

lemma likeStar_startsWith_eq_containsSeq (q : List Char) :
    ∀ s, likeStar (startsWith q) s = containsSeq q s := by
  intro s
  induction s with
  | nil => simp [likeStar, containsSeq]
  | cons d s ih => simp [likeStar, containsSeq, ih]

lemma likeMatch_pattern (q : List Char) (h1 : '%' ∉ q) (h2 : '_' ∉ q) :
    ∀ s, likeMatch ('%' :: (q ++ ['%'])) s = containsSeq q s := by
  intro s
  rw [likeMatch_percent_cons,
    likeStar_congr (likeMatch_plain_percent q h1 h2) s,
    likeStar_startsWith_eq_containsSeq q s]

lemma containsSeq_nil_pattern : ∀ s : List Char, containsSeq [] s = true := by
  intro s
  cases s <;> simp [containsSeq, startsWith]

/-! ### Text condition vs the spec's substring match -/

lemma fieldLike_eq_containsSeq (q : List Char) (h1 : '%' ∉ q) (h2 : '_' ∉ q)
    (field : Option String) :
    fieldLike ('%' :: (q ++ ['%'])) field =
      (match field with
       | none => false
       | some s => containsSeq q (lowerStr s).toList) := by
  cases field with
  | none => rfl
  | some s => simp only [fieldLike, likeMatch_pattern q h1 h2]

lemma textCond_eq_spec (query : String) (c : Company)
    (h1 : '%' ∉ (lowerStr (jsTrim query)).toList)
    (h2 : '_' ∉ (lowerStr (jsTrim query)).toList) :
    textCond (jsTrim query) c = specTextMatch query c := by
  simp only [textCond, specTextMatch]
  rw [fieldLike_eq_containsSeq _ h1 h2, fieldLike_eq_containsSeq _ h1 h2,
    fieldLike_eq_containsSeq _ h1 h2, fieldLike_eq_containsSeq _ h1 h2]

lemma jsTrim_empty_toList {query : String} (h : (jsTrim query).isEmpty = true) :
    (lowerStr (jsTrim query)).toList = [] := by
  rw [String.isEmpty_iff] at h
  rw [h]
  rfl

lemma specTextMatch_of_empty {query : String} (h : (jsTrim query).isEmpty = true)
    (c : Company) : specTextMatch query c = true := by
  simp only [specTextMatch]
  rw [jsTrim_empty_toList h]
  simp [containsSeq_nil_pattern]

lemma keywordWhere_eq_spec (query : String) (f : Lib.SearchFilters) (c : Company)
    (h1 : '%' ∉ (lowerStr (jsTrim query)).toList)
    (h2 : '_' ∉ (lowerStr (jsTrim query)).toList) :
    Lib.keywordWhere (jsTrim query) f c = (specTextMatch query c && Lib.filterPred f c) := by
  simp only [Lib.keywordWhere]
  by_cases he : (jsTrim query).isEmpty
  · rw [he, specTextMatch_of_empty he]
    simp
  · rw [Bool.eq_false_iff.mpr he, textCond_eq_spec query c h1 h2]
    simp

/-! ### Sample rows for witnesses and counterexamples -/

/-- A minimal company row: only `name` is set, every nullable column is
NULL, every flag 0, every array empty. -/
def blankCompany : Company :=
  { id := 1, name := "ab", one_liner := none, long_description := none,
    search_text := "", batch := none, stage := none, industry := none,
    launched_at := none, team_size := none, is_hiring := false,
    nonprofit := false, top_company := false, tags := [], industries := [],
    regions := [] }

/-- The all-empty filter set of `src/lib/search.ts`. -/
def sampleLibFilters : Lib.SearchFilters :=
  { tags := [], industries := [], years := [], stages := [], regions := [],
    isHiring := false, nonprofit := false, topCompany := false }

/-- The all-empty filter set of `src/unnamed/part_004`. -/
def sampleP4Filters : P4.SearchFilters :=
  { tags := [], industries := [], batches := [], years := [], stages := [],
    regions := [], isHiring := false, nonprofit := false, topCompany := false }

/-- A store holding the single company `blankCompany` and no embeddings. -/
def oneCompanyDb : DB := ⟨[blankCompany], []⟩

/-! ### Claim theorems: C2 -/

/-- Counterexample for C2 as stated: the query `"_"` is pushed into the SQL
`LIKE` pattern unescaped, so it matches the one-company corpus as a
single-character wildcard (`total = 1`) although no company contains the
literal substring `"_"` (the spec's text-match count is 0). -/
theorem keywordSearch_total_counterexample :
    (Lib.keywordSearch oneCompanyDb
      { query := "_", page := 1, pageSize := 10, sort := .relevance,
        filters := sampleLibFilters }).total = 1 ∧
    (oneCompanyDb.companies.filter fun c =>
      specTextMatch "_" c && Lib.filterPred sampleLibFilters c).length = 0 := by
  constructor
  · decide
  · decide

/-- Claim C2, amended: for every query whose trimmed, lowercased text (the
exact `LIKE` pattern body) contains no SQL wildcard `%` or `_`, the
`keywordSearch` total equals the number of companies satisfying the
case-insensitive substring text match ANDed with the filter predicate; and
for every query whatsoever the total is independent of page and
pageSize. -/
theorem keywordSearch_total_amended :
    (∀ (db : DB) (p : Lib.SearchParams),
      '%' ∉ (lowerStr (jsTrim p.query)).toList →
      '_' ∉ (lowerStr (jsTrim p.query)).toList →
      (Lib.keywordSearch db p).total =
        (db.companies.filter fun c =>
          specTextMatch p.query c && Lib.filterPred p.filters c).length) ∧
    (∀ (db : DB) (p : Lib.SearchParams) (page' pageSize' : Nat),
      (Lib.keywordSearch db { p with page := page', pageSize := pageSize' }).total =
        (Lib.keywordSearch db p).total) := by
  constructor
  · intro db p h1 h2
    simp only [Lib.keywordSearch]
    congr 1
    exact List.filter_congr fun c _ => keywordWhere_eq_spec p.query p.filters c h1 h2
  · intro db p page' pageSize'
    rfl

/-- Witness for C2 (amended) at a wildcard-free query. -/
theorem keywordSearch_total_amended_witness :
    (Lib.keywordSearch oneCompanyDb
      { query := "ab", page := 1, pageSize := 10, sort := .relevance,
        filters := sampleLibFilters }).total =
      (oneCompanyDb.companies.filter fun c =>
        specTextMatch "ab" c && Lib.filterPred sampleLibFilters c).length :=
  keywordSearch_total_amended.1 oneCompanyDb
    { query := "ab", page := 1, pageSize := 10, sort := .relevance,
      filters := sampleLibFilters } (by decide) (by decide)

/-! ### Claim theorems: C1 -/

/-- Counterexample for C1 as stated: the `semanticSearch` of
`src/unnamed/part_004` does not return an empty zero-total payload on a
whitespace-only query — it falls back to `keywordSearch`, which here
matches the one stored company, so the returned total is 1. -/
theorem semanticSearch_p4_empty_query_counterexample :
    (P4.semanticSearch oneCompanyDb
      { query := " ", page := 1, pageSize := 10, sort := .relevance,
        filters := sampleP4Filters } (fun _ => [])).total = 1 ∧
    (P4.semanticSearch oneCompanyDb
      { query := " ", page := 1, pageSize := 10, sort := .relevance,
        filters := sampleP4Filters } (fun _ => [])).total ≠ 0 := by
  constructor
  · decide
  · decide

/-- Claim C1, amended: the `semanticSearch` of `src/lib/search.ts` returns
`total = 0` with an empty results list echoing the given page and pageSize
on every empty or whitespace-only query, for every embedding provider
(the result does not depend on the provider at all); the variant in
`src/unnamed/part_004` instead falls back to `keywordSearch` on such
queries. -/
theorem semanticSearch_empty_query_amended :
    (∀ (db : DB) (p : Lib.SearchParams) (embed : String → List ℝ),
      jsTrim p.query = "" →
      Lib.semanticSearch db p embed =
        { total := 0, page := p.page, pageSize := p.pageSize, results := [] }) ∧
    (∀ (db : DB) (p : P4.SearchParams) (embed : String → List ℝ),
      jsTrim p.query = "" →
      P4.semanticSearch db p embed = .fromKeyword (P4.keywordSearch db p)) := by
  constructor
  · intro db p embed h
    simp only [Lib.semanticSearch, h]
    rfl
  · intro db p embed h
    simp only [P4.semanticSearch, h]
    rfl

/-- Witness for C1 (amended) at a whitespace-only query. -/
theorem semanticSearch_empty_query_amended_witness :
    Lib.semanticSearch oneCompanyDb
      { query := "  ", page := 2, pageSize := 5, sort := .relevance,
        filters := sampleLibFilters } (fun _ => [1]) =
      { total := 0, page := 2, pageSize := 5, results := [] } ∧
    P4.semanticSearch oneCompanyDb
      { query := "  ", page := 2, pageSize := 5, sort := .relevance,
        filters := sampleP4Filters } (fun _ => [1]) =
      .fromKeyword (P4.keywordSearch oneCompanyDb
        { query := "  ", page := 2, pageSize := 5, sort := .relevance,
          filters := sampleP4Filters }) :=
  ⟨semanticSearch_empty_query_amended.1 oneCompanyDb
    { query := "  ", page := 2, pageSize := 5, sort := .relevance,
      filters := sampleLibFilters } (fun _ => [1]) (by decide),
   semanticSearch_empty_query_amended.2 oneCompanyDb
    { query := "  ", page := 2, pageSize := 5, sort := .relevance,
      filters := sampleP4Filters } (fun _ => [1]) (by decide)⟩

/-! ### Supporting lemmas: getSimilarCompanies -/

lemma roundFixed_four_int (x : ℝ) : ∃ k : ℤ, roundFixed 4 x = (k : ℝ) / 10000 := by
  refine ⟨⌊x * (10 : ℝ) ^ 4 + 1 / 2⌋, ?_⟩
  rw [roundFixed]
  norm_num

lemma getSimilarCompanies_length_le (db : DB) (companyId : Int) (limit : Nat) :
    (getSimilarCompanies db companyId limit).length ≤ limit := by
  rw [getSimilarCompanies]
  cases hfind : db.embeddings.find? fun e => e.company_id == companyId with
  | none => simp
  | some target =>
    simp only [List.length_map, List.length_take]
    exact min_le_left _ _

lemma getSimilarCompanies_mem {db : DB} {companyId : Int} {limit : Nat}
    {r : SimilarRow} (hr : r ∈ getSimilarCompanies db companyId limit) :
    r.company.id ≠ companyId ∧ ∃ k : ℤ, r.similarity = (k : ℝ) / 10000 := by
  rw [getSimilarCompanies] at hr
  cases hfind : db.embeddings.find? (fun e => e.company_id == companyId) with
  | none => rw [hfind] at hr; simp at hr
  | some target =>
    rw [hfind] at hr
    simp only at hr
    obtain ⟨r', hr', rfl⟩ := List.mem_map.mp hr
    have hr'' := (List.mergeSort_perm _ similarityDescLe).mem_iff.mp
      (List.mem_of_mem_take hr')
    obtain ⟨p, hp, rfl⟩ := List.mem_map.mp hr''
    obtain ⟨c, hc, hpc⟩ := List.mem_flatMap.mp hp
    obtain ⟨e, _, rfl⟩ := List.mem_map.mp hpc
    refine ⟨?_, roundFixed_four_int _⟩
    have := List.of_mem_filter hc
    simpa using this

/-! ### Claim theorems: C10 -/

/-- Claim C10: `getSimilarCompanies(companyId, limit)` returns at most
`limit` rows, never a row for `companyId` itself, and every returned
similarity value is a multiple of 1/10000 (rounded to 4 decimal places). -/
theorem getSimilarCompanies_spec :
    ∀ (db : DB) (companyId : Int) (limit : Nat),
      (getSimilarCompanies db companyId limit).length ≤ limit ∧
      ∀ r ∈ getSimilarCompanies db companyId limit,
        r.company.id ≠ companyId ∧ ∃ k : ℤ, r.similarity = (k : ℝ) / 10000 := by
  intro db companyId limit
  exact ⟨getSimilarCompanies_length_le db companyId limit,
    fun r hr => getSimilarCompanies_mem hr⟩

/-- Witness for C10 on an empty store. -/
theorem getSimilarCompanies_spec_witness :
    (getSimilarCompanies ⟨[], []⟩ 1 0).length ≤ 0 :=
  (getSimilarCompanies_spec ⟨[], []⟩ 1 0).1

/-! ### Claim theorems: C9 -/

/-- Claim C9: `getCompanyEmbeddingMap(companyId, similarLimit)` returns null
exactly when the projection has no point for the company; otherwise it
returns a `PCA` payload holding exactly the selected company's point
(tagged `selected`) plus the projection points whose ids lie in its
similar-company id set (tagged `similar`, never the company itself), and no
other points. -/
theorem getCompanyEmbeddingMap_spec :
    ∀ (db : DB) (companyId : Int) (similarLimit : Nat),
      (getCompanyEmbeddingMap db companyId similarLimit = none ↔
        ∀ p ∈ loadProjection db, p.id ≠ companyId) ∧
      ∀ m, getCompanyEmbeddingMap db companyId similarLimit = some m →
        m.method = "PCA" ∧ m.selectedCompanyId = companyId ∧
        (∀ q ∈ m.points,
          (q.group = .selected ∧ q.point.id = companyId) ∨
          (q.group = .similar ∧ q.point.id ≠ companyId ∧
            q.point.id ∈
              (getSimilarCompanies db companyId similarLimit).map (·.company.id))) ∧
        (∀ p ∈ loadProjection db,
          p.id = companyId ∨
            p.id ∈ (getSimilarCompanies db companyId similarLimit).map (·.company.id) →
          ∃ q ∈ m.points, q.point = p) ∧
        (∃ q ∈ m.points, q.point.id = companyId ∧ q.group = .selected) := by
  intro db companyId similarLimit
  rw [getCompanyEmbeddingMap]
  cases hfind : (loadProjection db).find? fun p => p.id == companyId with
  | none =>
    constructor
    · simp only [true_iff]
      intro p hp
      have := List.find?_eq_none.mp hfind p hp
      simpa using this
    · intro m hm
      simp at hm
  | some sel =>
    have hsel_mem : sel ∈ loadProjection db := List.mem_of_find?_eq_some hfind
    have hsel_id : sel.id = companyId := by
      have := List.find?_some hfind
      simpa using this
    constructor
    · constructor
      · intro h
        simp at h
      · intro h
        exact absurd hsel_id (h sel hsel_mem)
    · intro m hm
      simp only [Option.some.injEq] at hm
      subst hm
      refine ⟨rfl, rfl, ?_, ?_, ?_⟩
      · intro q hq
        obtain ⟨p, hp, rfl⟩ := List.mem_map.mp hq
        have hp_pass := List.of_mem_filter hp
        by_cases hid : p.id = companyId
        · left
          exact ⟨by simp [hid], hid⟩
        · right
          refine ⟨by simp [hid], hid, ?_⟩
          rcases Bool.or_eq_true_iff.mp hp_pass with h | h
          · exact absurd (by simpa using h) hid
          · simpa using h
      · intro p hp hcase
        have hpf : p ∈ (loadProjection db).filter fun p =>
            p.id == companyId ||
              ((getSimilarCompanies db companyId similarLimit).map
                (fun x => x.company.id)).contains p.id := by
          apply List.mem_filter.mpr
          refine ⟨hp, ?_⟩
          rcases hcase with h | h
          · simp [h]
          · simp only [Bool.or_eq_true]
            right
            simpa using h
        exact ⟨_, List.mem_map_of_mem _ hpf, rfl⟩
      · have hself : sel ∈ (loadProjection db).filter fun p =>
            p.id == companyId ||
              ((getSimilarCompanies db companyId similarLimit).map
                (fun x => x.company.id)).contains p.id :=
          List.mem_filter.mpr ⟨hsel_mem, by simp [hsel_id]⟩
        exact ⟨_, List.mem_map_of_mem _ hself, hsel_id, by simp [hsel_id]⟩

/-- Witness for C9: an empty store projects no points, so the map lookup
reports "not found". -/
theorem getCompanyEmbeddingMap_spec_witness :
    getCompanyEmbeddingMap ⟨[], []⟩ 1 5 = none :=
  (getCompanyEmbeddingMap_spec ⟨[], []⟩ 1 5).1.mpr (by
    intro p hp
    rw [show loadProjection ⟨[], []⟩ = ([] : List ProjPoint) from rfl] at hp
    simp at hp)

/-! ### Supporting lemmas: association-list tallies -/

/-- Keys of an association list. -/
def mapKeys {V : Type} (m : List (String × V)) : List String :=
  m.map (·.1)

lemma mapGet?_cons {V : Type} (k' : String) (v' : V) (t : List (String × V)) (k : String) :
    mapGet? ((k', v') :: t) k = if k' == k then some v' else mapGet? t k := by
  simp only [mapGet?, List.find?]
  by_cases h : k' == k
  · simp [h]
  · simp [Bool.eq_false_iff.mpr h, h]

lemma bump_cons_ne {k' : String} {k : String} (v' : Nat) (t : List (String × Nat))
    (h : k' ≠ k) : bump ((k', v') :: t) k = (k', v') :: bump t k := by
  simp only [bump, mapGet?_cons, mapSet]
  rw [if_neg (by simpa using h), if_neg (by simpa using h)]

lemma bump_lookup (m : List (String × Nat)) (a k : String) :
    ((mapGet? (bump m a) k).getD 0 : Nat) =
      (mapGet? m k).getD 0 + (if a = k then 1 else 0) := by
  induction m with
  | nil =>
    by_cases h : a = k
    · subst h
      simp [bump, mapGet?, mapSet, List.find?]
    · simp [bump, mapGet?, mapSet, List.find?, beq_eq_false_iff_ne.mpr h, h]
  | cons p t ih =>
    obtain ⟨k', v'⟩ := p
    by_cases hk : k' = a
    · subst hk
      have hb : bump ((k', v') :: t) k' = (k', v' + 1) :: t := by
        simp [bump, mapGet?_cons, mapSet]
      rw [hb, mapGet?_cons, mapGet?_cons]
      by_cases h : k' = k
      · simp [h]
      · rw [if_neg (by simpa using h), if_neg (by simpa using h),
          if_neg (fun hh => h hh)]
        simp
    · rw [bump_cons_ne _ _ (by simpa using hk), mapGet?_cons, mapGet?_cons]
      by_cases h : k' = k
      · subst h
        simp only [beq_self_eq_true, if_pos, Option.getD_some]
        have : ¬a = k' := fun hh => hk hh.symm
        simp [this]
      · rw [if_neg (by simpa using h), if_neg (by simpa using h), ih]

lemma foldl_bump_lookup (items : List String) :
    ∀ (m : List (String × Nat)) (k : String),
      ((mapGet? (items.foldl bump m) k).getD 0 : Nat) =
        (mapGet? m k).getD 0 + items.count k := by
  induction items with
  | nil => intro m k; simp
  | cons a items ih =>
    intro m k
    rw [List.foldl_cons, ih (bump m a) k, bump_lookup m a k, List.count_cons]
    have hif : (if (a == k) = true then 1 else 0) = (if a = k then 1 else 0) := by
      by_cases h : a = k <;> simp [h]
    rw [hif]
    omega

lemma mem_mapKeys_mapSet {V : Type} {m : List (String × V)} {k x : String} {v : V}
    (hx : x ∈ mapKeys (mapSet m k v)) : x ∈ mapKeys m ∨ x = k := by
  induction m with
  | nil => simpa [mapSet, mapKeys] using hx
  | cons p t ih =>
    obtain ⟨k', v'⟩ := p
    by_cases h : k' = k
    · subst h
      simp only [mapSet, beq_self_eq_true, if_pos] at hx
      rcases List.mem_cons.mp hx with h | h
      · right; simpa using h
      · left; exact List.mem_cons_of_mem _ (by simpa [mapKeys] using h)
    · rw [mapSet] at hx
      rw [if_neg (by simpa using h)] at hx
      rcases List.mem_cons.mp hx with h' | h'
      · left; simp [mapKeys, h']
      · rcases ih (by simpa [mapKeys] using h') with h'' | h''
        · left; exact List.mem_cons_of_mem _ h''
        · right; exact h''

lemma nodup_mapKeys_mapSet {V : Type} {m : List (String × V)} {k : String} {v : V}
    (hm : (mapKeys m).Nodup) : (mapKeys (mapSet m k v)).Nodup := by
  induction m with
  | nil => simp [mapSet, mapKeys]
  | cons p t ih =>
    obtain ⟨k', v'⟩ := p
    simp only [mapKeys, List.map_cons, List.nodup_cons] at hm
    by_cases h : k' = k
    · subst h
      simp only [mapSet, beq_self_eq_true, if_pos]
      simpa [mapKeys] using hm
    · rw [mapSet, if_neg (by simpa using h)]
      simp only [mapKeys, List.map_cons, List.nodup_cons]
      refine ⟨?_, ih hm.2⟩
      intro hmem
      rcases mem_mapKeys_mapSet (by simpa [mapKeys] using hmem) with h' | h'
      · exact hm.1 h'
      · exact h h'

lemma nodup_mapKeys_bump {m : List (String × Nat)} {a : String}
    (hm : (mapKeys m).Nodup) : (mapKeys (bump m a)).Nodup :=
  nodup_mapKeys_mapSet hm

lemma nodup_mapKeys_foldl_bump (items : List String) :
    ∀ m : List (String × Nat), (mapKeys m).Nodup → (mapKeys (items.foldl bump m)).Nodup := by
  induction items with
  | nil => intro m hm; simpa using hm
  | cons a items ih => intro m hm; exact ih (bump m a) (nodup_mapKeys_bump hm)

lemma mapGet?_of_mem {V : Type} {m : List (String × V)} {k : String} {v : V}
    (hm : (mapKeys m).Nodup) (hkv : (k, v) ∈ m) : mapGet? m k = some v := by
  induction m with
  | nil => simp at hkv
  | cons p t ih =>
    obtain ⟨k', v'⟩ := p
    simp only [mapKeys, List.map_cons, List.nodup_cons] at hm
    rcases List.mem_cons.mp hkv with h | h
    · have h1 : k = k' := congrArg Prod.fst h
      have h2 : v = v' := congrArg Prod.snd h
      subst h1
      subst h2
      rw [mapGet?_cons]
      simp
    · rw [mapGet?_cons]
      by_cases hk : k' = k
      · subst hk
        exact absurd (by simpa [mapKeys] using List.mem_map_of_mem Prod.fst h) hm.1
      · rw [if_neg (by simpa using hk)]
        exact ih hm.2 h

lemma foldl_bump_entry {items : List String} {p : String × Nat}
    (hp : p ∈ items.foldl bump []) : p.2 = items.count p.1 := by
  have hnd : (mapKeys (items.foldl bump [])).Nodup :=
    nodup_mapKeys_foldl_bump items [] (by simp [mapKeys])
  have hlook : mapGet? (items.foldl bump []) p.1 = some p.2 := mapGet?_of_mem hnd hp
  have := foldl_bump_lookup items [] p.1
  rw [hlook] at this
  simpa [mapGet?] using this

lemma foldl_nested_eq_flat (f : Company → List String) :
    ∀ (cs : List Company) (m : List (String × Nat)),
      cs.foldl (fun m c => (f c).foldl bump m) m = (cs.flatMap f).foldl bump m := by
  intro cs
  induction cs with
  | nil => intro m; simp
  | cons c cs ih => intro m; simp only [List.foldl_cons, List.flatMap_cons,
      List.foldl_append, ih]

lemma facet_entry_count (f : Company → List String) (cs : List Company)
    {p : String × Nat}
    (hp : p ∈ formatFacet (cs.foldl (fun m c => (f c).foldl bump m) [])) :
    p.2 = (cs.flatMap f).count p.1 := by
  have hmem := (List.mergeSort_perm
    (cs.foldl (fun m c => (f c).foldl bump m) []) fun l r => decide (r.2 ≤ l.2)).mem_iff.mp hp
  rw [foldl_nested_eq_flat f cs] at hmem
  exact foldl_bump_entry hmem

/-! ### Claim theorems: C8 -/

unseal List.mergeSort List.merge in
/-- Counterexample for C8 as stated: a company whose stored `tags` array
holds the duplicate value `"ai"` twice is counted twice by `getFacets`
(count 2), although only one company carries the value — each company is
NOT counted at most once per distinct value. -/
theorem getFacets_duplicate_counterexample :
    (Lib.getFacets ⟨[{ blankCompany with tags := ["ai", "ai"] }], []⟩).tags
      = [("ai", 2)] ∧
    ((⟨[{ blankCompany with tags := ["ai", "ai"] }], []⟩ : DB).companies.filter
      fun c => c.tags.contains "ai").length = 1 := by
  constructor
  · decide
  · decide

/-- Claim C8, amended: in each multi-valued facet dimension
(tags/industries/regions) `getFacets` counts one per stored occurrence, so
every emitted `(value, count)` pair has `count` equal to the total number of
occurrences of the value across all companies (a company carrying a value
twice contributes two, not one). -/
theorem getFacets_count_amended :
    ∀ db : DB,
      (∀ p ∈ (Lib.getFacets db).tags,
        p.2 = (db.companies.flatMap (·.tags)).count p.1) ∧
      (∀ p ∈ (Lib.getFacets db).industries,
        p.2 = (db.companies.flatMap (·.industries)).count p.1) ∧
      (∀ p ∈ (Lib.getFacets db).regions,
        p.2 = (db.companies.flatMap (·.regions)).count p.1) := by
  intro db
  exact ⟨fun p hp => facet_entry_count (·.tags) db.companies hp,
    fun p hp => facet_entry_count (·.industries) db.companies hp,
    fun p hp => facet_entry_count (·.regions) db.companies hp⟩

unseal List.mergeSort List.merge in
/-- Witness for C8 (amended) on a one-company store. -/
theorem getFacets_count_amended_witness :
    ("ai", 1) ∈ (Lib.getFacets ⟨[{ blankCompany with tags := ["ai"] }], []⟩).tags ∧
    (1 : Nat) =
      (((⟨[{ blankCompany with tags := ["ai"] }], []⟩ : DB).companies.flatMap
        (·.tags)).count "ai") :=
  ⟨by decide,
   (getFacets_count_amended ⟨[{ blankCompany with tags := ["ai"] }], []⟩).1
     ("ai", 1) (by decide)⟩

/-! ### Supporting lemmas: pagination, sorting, rounding -/

lemma jsSlice_length_le {α : Type} (l : List α) (s : Int) (ps : Nat) :
    (jsSlice l s (s + (ps : Int))).length ≤ ps := by
  simp only [jsSlice, List.length_take, List.length_drop]
  split_ifs <;> omega

lemma jsSlice_sublist {α : Type} (l : List α) (s e : Int) :
    (jsSlice l s e).Sublist l := by
  simp only [jsSlice]
  exact (List.take_sublist _ _).trans (List.drop_sublist _ _)

lemma scoreDescLe_trans (a b c : ScoredCompany) :
    scoreDescLe a b → scoreDescLe b c → scoreDescLe a c := by
  simp only [scoreDescLe, decide_eq_true_eq]
  exact fun h1 h2 => le_trans h2 h1

lemma scoreDescLe_total (a b : ScoredCompany) :
    (scoreDescLe a b || scoreDescLe b a) = true := by
  simp only [scoreDescLe, Bool.or_eq_true, decide_eq_true_eq]
  exact le_total b.score a.score

lemma roundFixed_mono (p : ℕ) {a b : ℝ} (h : a ≤ b) :
    roundFixed p a ≤ roundFixed p b := by
  rw [roundFixed, roundFixed]
  have hp : (0 : ℝ) < (10 : ℝ) ^ p := by positivity
  apply div_le_div_of_nonneg_right ?_ hp.le
  case _ =>
    exact_mod_cast Int.floor_le_floor
      (by nlinarith [mul_le_mul_of_nonneg_right h (le_of_lt hp)])

lemma sum_map_ite_count {α : Type} (q : α → Bool) (l : List α) :
    (l.map fun a => if q a then 1 else 0).sum = l.countP q := by
  induction l with
  | nil => simp
  | cons a t ih =>
    rw [List.map_cons, List.sum_cons, ih, List.countP_cons]
    by_cases h : q a <;> simp [h] <;> omega

lemma filter_embeddings_length {embs : List EmbeddingRow}
    (hnd : (embs.map (·.company_id)).Nodup) (i : Int) :
    (embs.filter fun e => e.company_id == i).length =
      if embs.any fun e => e.company_id == i then 1 else 0 := by
  induction embs with
  | nil => simp
  | cons e t ih =>
    simp only [List.map_cons, List.nodup_cons] at hnd
    by_cases h : e.company_id = i
    · have ht : (t.filter fun x => x.company_id == i) = [] := by
        apply List.filter_eq_nil_iff.mpr
        intro x hx hbe
        exact hnd.1 (by
          rw [beq_iff_eq] at hbe
          rw [h, ← hbe]
          exact List.mem_map_of_mem (·.company_id) hx)
      rw [List.filter_cons, if_pos (by simpa using h), ht]
      rw [List.any_cons]
      simp [h]
    · rw [List.filter_cons, if_neg (by simpa using h), List.any_cons]
      rw [ih hnd.2]
      simp [h]

lemma semanticJoinRows_length {db : DB} (pred : Company → Bool)
    (hnd : (db.embeddings.map (·.company_id)).Nodup) :
    (semanticJoinRows db pred).length =
      (db.companies.filter fun c =>
        pred c && db.embeddings.any fun e => e.company_id == c.id).length := by
  rw [semanticJoinRows, List.length_flatMap]
  have hmap : ∀ cs : List Company,
      (cs.map (List.length ∘ fun c =>
        (db.embeddings.filter fun e => e.company_id == c.id).map fun e => (c, e.vector))).sum
        = cs.countP fun c => db.embeddings.any fun e => e.company_id == c.id := by
    intro cs
    rw [← sum_map_ite_count]
    congr 1
    apply List.map_congr_left
    intro c _
    simp only [Function.comp_apply, List.length_map]
    exact filter_embeddings_length hnd c.id
  rw [hmap, List.countP_filter, List.countP_eq_length_filter]
  congr 1
  apply List.filter_congr
  intro c _
  rw [Bool.and_comm]

/-! ### Claim theorems: C3 -/

/-- Claim C3: for a non-empty query (and the schema invariant that
`company_id` is unique in `company_embeddings`), `semanticSearch` returns a
page of at most `pageSize` rows, sorted by non-increasing score; `total`
equals the number of companies that pass the filter and have a stored
embedding (the full scored set, not the page); and every returned score is
rounded to 4 decimal places (a multiple of 1/10000). -/
theorem semanticSearch_ranked_spec :
    ∀ (db : DB) (p : Lib.SearchParams) (embed : String → List ℝ),
      jsTrim p.query ≠ "" →
      (db.embeddings.map (·.company_id)).Nodup →
      (Lib.semanticSearch db p embed).results.length ≤ p.pageSize ∧
      (Lib.semanticSearch db p embed).results.Pairwise
        (fun a b => b.score ≤ a.score) ∧
      (Lib.semanticSearch db p embed).total =
        (db.companies.filter fun c =>
          Lib.filterPred p.filters c &&
            db.embeddings.any fun e => e.company_id == c.id).length ∧
      ∀ r ∈ (Lib.semanticSearch db p embed).results,
        ∃ k : ℤ, r.score = (k : ℝ) / 10000 := by
  intro db p embed hq hnd
  have hunf : Lib.semanticSearch db p embed =
      { total := ((semanticJoinRows db (Lib.filterPred p.filters)).map fun r =>
          ({ company := r.1,
             score := cosineSimilarity (embed (jsTrim p.query)) r.2 } : ScoredCompany)).length
        page := p.page
        pageSize := p.pageSize
        results := (jsSlice
          (((semanticJoinRows db (Lib.filterPred p.filters)).map fun r =>
            ({ company := r.1,
               score := cosineSimilarity (embed (jsTrim p.query)) r.2 } : ScoredCompany)).mergeSort
            scoreDescLe)
          (((p.page : Int) - 1) * (p.pageSize : Int))
          (((p.page : Int) - 1) * (p.pageSize : Int) + (p.pageSize : Int))).map
            fun r => { r with score := roundFixed 4 r.score } } := by
    simp only [Lib.semanticSearch, if_neg hq]
  rw [hunf]
  simp only
  constructor
  · rw [List.length_map]
    exact jsSlice_length_le _ _ _
  constructor
  · have hsorted := List.sorted_mergeSort
      scoreDescLe_trans scoreDescLe_total
      ((semanticJoinRows db (Lib.filterPred p.filters)).map fun r =>
        ({ company := r.1,
           score := cosineSimilarity (embed (jsTrim p.query)) r.2 } : ScoredCompany))
    have hsorted' := hsorted.sublist (jsSlice_sublist _
      (((p.page : Int) - 1) * (p.pageSize : Int))
      (((p.page : Int) - 1) * (p.pageSize : Int) + (p.pageSize : Int)))
    rw [List.pairwise_map]
    apply hsorted'.imp
    intro a b hab
    simp only [scoreDescLe, decide_eq_true_eq] at hab
    exact roundFixed_mono 4 hab
  constructor
  · rw [List.length_map]
    exact semanticJoinRows_length (Lib.filterPred p.filters) hnd
  · intro r hr
    obtain ⟨r', _, rfl⟩ := List.mem_map.mp hr
    exact roundFixed_four_int _

/-- Witness for C3 on a one-company, one-embedding store and the query
`"ai"`. -/
theorem semanticSearch_ranked_spec_witness :
    jsTrim "ai" ≠ "" ∧
    ((((⟨[blankCompany], [⟨1, [1]⟩]⟩ : DB)).embeddings.map (·.company_id)).Nodup) ∧
    (Lib.semanticSearch ⟨[blankCompany], [⟨1, [1]⟩]⟩
      { query := "ai", page := 1, pageSize := 10, sort := .relevance,
        filters := sampleLibFilters } (fun _ => [1])).total =
      ((⟨[blankCompany], [⟨1, [1]⟩]⟩ : DB).companies.filter fun c =>
        Lib.filterPred sampleLibFilters c &&
          (⟨[blankCompany], [⟨1, [1]⟩]⟩ : DB).embeddings.any
            fun e => e.company_id == c.id).length :=
  ⟨by decide, by decide,
   ((semanticSearch_ranked_spec ⟨[blankCompany], [⟨1, [1]⟩]⟩
      { query := "ai", page := 1, pageSize := 10, sort := .relevance,
        filters := sampleLibFilters } (fun _ => [1]) (by decide) (by decide)).2.2).1⟩

/-! ### Supporting lemmas: batch aggregation invariants -/

/-- Sum of the values of a tally list. -/
def sumValues (m : List (String × Nat)) : Nat :=
  (m.map (·.2)).sum

/-- The invariant maintained for every entry of the per-batch aggregate map:
the entry is keyed by its own batch label, its sort fields come from
`batchSortKey`, its category tally has distinct keys, and (when a color
dimension is active) the tally sums to the batch total. -/
def aggInv (colorBy : AnalyticsColorBy) (q : String × BatchAggregate) : Prop :=
  q.2.batch = q.1 ∧
  q.2.year = (batchSortKey q.1).year ∧
  q.2.seasonOrder = (batchSortKey q.1).seasonOrder ∧
  (mapKeys q.2.categoryCounts).Nodup ∧
  (colorBy ≠ .none → sumValues q.2.categoryCounts = q.2.total)

lemma mapGet?_mem {V : Type} {m : List (String × V)} {k : String} {v : V}
    (h : mapGet? m k = some v) : (k, v) ∈ m := by
  induction m with
  | nil => simp [mapGet?] at h
  | cons p t ih =>
    obtain ⟨k', v'⟩ := p
    rw [mapGet?_cons] at h
    by_cases hk : k' = k
    · subst hk
      rw [if_pos (by simp)] at h
      injection h with h
      subst h
      exact List.mem_cons_self _ _
    · rw [if_neg (by simpa using hk)] at h
      exact List.mem_cons_of_mem _ (ih h)

lemma mapSet_forall {V : Type} {m : List (String × V)} {k : String} {v : V}
    {P : String × V → Prop} (hm : ∀ q ∈ m, P q) (hkv : P (k, v)) :
    ∀ q ∈ mapSet m k v, P q := by
  induction m with
  | nil => simpa [mapSet] using hkv
  | cons p t ih =>
    obtain ⟨k', v'⟩ := p
    rw [mapSet]
    by_cases hk : k' = k
    · rw [if_pos (by simpa using hk)]
      intro q hq
      rcases List.mem_cons.mp hq with h | h
      · exact h ▸ hkv
      · exact hm q (List.mem_cons_of_mem _ h)
    · rw [if_neg (by simpa using hk)]
      intro q hq
      rcases List.mem_cons.mp hq with h | h
      · exact h ▸ hm (k', v') (List.mem_cons_self _ _)
      · exact ih (fun q hq' => hm q (List.mem_cons_of_mem _ hq')) q h

lemma bump_sumValues (m : List (String × Nat)) (a : String) :
    sumValues (bump m a) = sumValues m + 1 := by
  induction m with
  | nil => simp [bump, mapGet?, mapSet, sumValues, List.find?]
  | cons p t ih =>
    obtain ⟨k', v'⟩ := p
    by_cases hk : k' = a
    · subst hk
      have hb : bump ((k', v') :: t) k' = (k', v' + 1) :: t := by
        simp [bump, mapGet?_cons, mapSet]
      rw [hb]
      simp [sumValues]
      omega
    · rw [bump_cons_ne _ _ (by simpa using hk)]
      simp only [sumValues, List.map_cons, List.sum_cons] at ih ⊢
      omega

lemma analyticsStep_preserves (colorBy : AnalyticsColorBy)
    {acc : List (String × BatchAggregate) × List (String × Nat)} (row : Company)
    (h1 : ∀ q ∈ acc.1, aggInv colorBy q) (h2 : (mapKeys acc.2).Nodup) :
    (∀ q ∈ (analyticsStep colorBy acc row).1, aggInv colorBy q) ∧
    (mapKeys (analyticsStep colorBy acc row).2).Nodup := by
  rw [analyticsStep]
  have hbase : aggInv colorBy (row.batch.getD "Unspecified",
      ((mapGet? acc.1 (row.batch.getD "Unspecified")).getD
        { batch := row.batch.getD "Unspecified",
          year := (batchSortKey (row.batch.getD "Unspecified")).year,
          seasonOrder := (batchSortKey (row.batch.getD "Unspecified")).seasonOrder,
          total := 0, categoryCounts := [] })) := by
    cases hget : mapGet? acc.1 (row.batch.getD "Unspecified") with
    | none =>
      simp only [Option.getD_none]
      exact ⟨rfl, rfl, rfl, by simp [mapKeys], fun _ => by simp [sumValues]⟩
    | some e => simpa using h1 _ (mapGet?_mem hget)
  obtain ⟨hb1, hb2, hb3, hb4, hb5⟩ := hbase
  by_cases hc : colorBy = .none
  · subst hc
    rw [if_pos (by simp)]
    refine ⟨?_, h2⟩
    apply mapSet_forall h1
    exact ⟨hb1, hb2, hb3, hb4, fun hne => absurd rfl hne⟩
  · rw [if_neg (by simpa using hc)]
    refine ⟨?_, nodup_mapKeys_bump h2⟩
    apply mapSet_forall h1
    refine ⟨hb1, hb2, hb3, nodup_mapKeys_bump hb4, fun _ => ?_⟩
    rw [bump_sumValues, hb5 hc]

lemma analytics_fold_inv (colorBy : AnalyticsColorBy) (rows : List Company) :
    ∀ acc : List (String × BatchAggregate) × List (String × Nat),
      (∀ q ∈ acc.1, aggInv colorBy q) → (mapKeys acc.2).Nodup →
      (∀ q ∈ (rows.foldl (analyticsStep colorBy) acc).1, aggInv colorBy q) ∧
      (mapKeys (rows.foldl (analyticsStep colorBy) acc).2).Nodup := by
  induction rows with
  | nil => intro acc h1 h2; exact ⟨h1, h2⟩
  | cons row rows ih =>
    intro acc h1 h2
    rw [List.foldl_cons]
    obtain ⟨h1', h2'⟩ := analyticsStep_preserves colorBy row h1 h2
    exact ih _ h1' h2'

lemma sum_map_ite_le (k₀ : String) (v₀ : Nat) (g : String → Nat) :
    ∀ ks : List String, ks.Nodup →
      (ks.map fun k => if k₀ == k then v₀ else g k).sum ≤ v₀ + (ks.map g).sum := by
  intro ks
  induction ks with
  | nil => simp
  | cons k ks ih =>
    intro hnd
    rw [List.nodup_cons] at hnd
    rw [List.map_cons, List.sum_cons, List.map_cons, List.sum_cons]
    by_cases hk : k₀ = k
    · subst hk
      rw [if_pos (by simp)]
      have hrest : (ks.map fun k => if k₀ == k then v₀ else g k).sum = (ks.map g).sum := by
        congr 1
        apply List.map_congr_left
        intro x hx
        rw [if_neg (by simpa using fun hh : k₀ = x => hnd.1 (hh ▸ hx))]
      rw [hrest]
      omega
    · rw [if_neg (by simpa using hk)]
      have := ih hnd.2
      omega

lemma sum_lookup_le (ks : List String) (hks : ks.Nodup) :
    ∀ m : List (String × Nat),
      (ks.map fun k => (mapGet? m k).getD 0).sum ≤ sumValues m := by
  intro m
  induction m with
  | nil =>
    have : (ks.map fun k => ((mapGet? ([] : List (String × Nat)) k).getD 0)).sum = 0 := by
      induction ks with
      | nil => simp
      | cons a t ih => simpa [mapGet?] using ih
    simp [this, sumValues]
  | cons p t ih =>
    obtain ⟨k₀, v₀⟩ := p
    have hcong : (ks.map fun k => (mapGet? ((k₀, v₀) :: t) k).getD 0).sum =
        (ks.map fun k => if k₀ == k then v₀ else (mapGet? t k).getD 0).sum := by
      congr 1
      apply List.map_congr_left
      intro x _
      rw [mapGet?_cons]
      by_cases h : k₀ = x
      · simp [h]
      · rw [if_neg (by simpa using h), if_neg (by simpa using h)]
    rw [hcong]
    calc (ks.map fun k => if k₀ == k then v₀ else (mapGet? t k).getD 0).sum
        ≤ v₀ + (ks.map fun k => (mapGet? t k).getD 0).sum :=
          sum_map_ite_le k₀ v₀ _ ks hks
      _ ≤ v₀ + sumValues t := by have := ih; omega
      _ = sumValues ((k₀, v₀) :: t) := by simp [sumValues]

/-! ### Supporting lemmas: chart-row objects -/

lemma mapGet?_mapSet_self {V : Type} (m : List (String × V)) (k : String) (v : V) :
    mapGet? (mapSet m k v) k = some v := by
  induction m with
  | nil => simp [mapSet, mapGet?_cons, mapGet?]
  | cons p t ih =>
    obtain ⟨k', v'⟩ := p
    by_cases h : k' = k
    · rw [show mapSet ((k', v') :: t) k v = (k, v) :: t from by simp [mapSet, h],
        mapGet?_cons, if_pos (by simp)]
    · rw [show mapSet ((k', v') :: t) k v = (k', v') :: mapSet t k v from by
        simp [mapSet, h], mapGet?_cons, if_neg (by simpa using h)]
      exact ih

lemma mapGet?_mapSet_ne {V : Type} (m : List (String × V)) {k' k : String} (v : V)
    (h : k' ≠ k) : mapGet? (mapSet m k' v) k = mapGet? m k := by
  induction m with
  | nil => simp [mapSet, mapGet?_cons, mapGet?, h]
  | cons p t ih =>
    obtain ⟨k'', v''⟩ := p
    by_cases h2 : k'' = k'
    · rw [show mapSet ((k'', v'') :: t) k' v = (k', v) :: t from by simp [mapSet, h2],
        mapGet?_cons, if_neg (by simpa using h), mapGet?_cons,
        if_neg (by simpa [h2] using h)]
    · rw [show mapSet ((k'', v'') :: t) k' v = (k'', v'') :: mapSet t k' v from by
        simp [mapSet, h2], mapGet?_cons, mapGet?_cons]
      by_cases h3 : k'' = k
      · rw [if_pos (by simpa using h3), if_pos (by simpa using h3)]
      · rw [if_neg (by simpa using h3), if_neg (by simpa using h3)]
        exact ih

lemma catFold_snd (cc : List (String × Nat)) :
    ∀ (cats : List String) (row : JsObj) (n : Nat),
      (cats.foldl (categoryStep cc) (row, n)).2 =
        n + (cats.map fun cat => (mapGet? cc cat).getD 0).sum := by
  intro cats
  induction cats with
  | nil => intro row n; simp
  | cons c cats ih =>
    intro row n
    rw [List.foldl_cons,
      show categoryStep cc (row, n) c =
        (mapSet row c (JsVal.num (((mapGet? cc c).getD 0 : Nat) : Int)),
          n + (mapGet? cc c).getD 0) from rfl,
      ih, List.map_cons, List.sum_cons]
    omega

lemma catFold_get_notin (cc : List (String × Nat)) :
    ∀ (cats : List String) (row : JsObj) (n : Nat) (k : String), k ∉ cats →
      mapGet? (cats.foldl (categoryStep cc) (row, n)).1 k = mapGet? row k := by
  intro cats
  induction cats with
  | nil => intro row n k _; rfl
  | cons c cats ih =>
    intro row n k hk
    rw [List.foldl_cons,
      show categoryStep cc (row, n) c =
        (mapSet row c (JsVal.num (((mapGet? cc c).getD 0 : Nat) : Int)),
          n + (mapGet? cc c).getD 0) from rfl,
      ih _ _ _ (fun h => hk (List.mem_cons_of_mem _ h)),
      mapGet?_mapSet_ne _ _
        (fun h => hk (by rw [← h]; exact List.mem_cons_self c cats))]

lemma catFold_get_mem (cc : List (String × Nat)) :
    ∀ (cats : List String), cats.Nodup →
      ∀ (row : JsObj) (n : Nat) (cat : String), cat ∈ cats →
      mapGet? (cats.foldl (categoryStep cc) (row, n)).1 cat =
        some (JsVal.num (((mapGet? cc cat).getD 0 : Nat) : Int)) := by
  intro cats
  induction cats with
  | nil => intro _ _ _ cat h; simp at h
  | cons c cats ih =>
    intro hnd row n cat hcat
    rw [List.nodup_cons] at hnd
    rw [List.foldl_cons,
      show categoryStep cc (row, n) c =
        (mapSet row c (JsVal.num (((mapGet? cc c).getD 0 : Nat) : Int)),
          n + (mapGet? cc c).getD 0) from rfl]
    rcases List.mem_cons.mp hcat with h | h
    · subst h
      rw [catFold_get_notin cc cats _ _ _ hnd.1, mapGet?_mapSet_self]
    · exact ih hnd.2 _ _ _ h

lemma sum_map_intCast (g : String → Nat) (l : List String) :
    (l.map fun x => ((g x : Nat) : Int)).sum = (((l.map g).sum : Nat) : Int) := by
  induction l with
  | nil => simp
  | cons a t ih =>
    rw [List.map_cons, List.sum_cons, ih, List.map_cons, List.sum_cons]
    push_cast
    ring

lemma topCategories_nodup (colorBy : AnalyticsColorBy) (rows0 : List Company)
    (topN : Nat) :
    (((((rows0.foldl (analyticsStep colorBy) ([], [])).2.mergeSort
      fun l r => decide (r.2 ≤ l.2)).take topN).map (·.1)).Nodup) := by
  have hinv := analytics_fold_inv colorBy rows0 ([], [])
    (by intro q hq; simp at hq) (by simp [mapKeys])
  have hperm := List.mergeSort_perm (rows0.foldl (analyticsStep colorBy) ([], [])).2
    fun l r => decide (r.2 ≤ l.2)
  have hnd2 : (((rows0.foldl (analyticsStep colorBy) ([], [])).2.mergeSort
      fun l r => decide (r.2 ≤ l.2)).map (fun q : String × Nat => q.1)).Nodup :=
    (hperm.map (fun q : String × Nat => q.1)).nodup_iff.mpr
      (by simpa [mapKeys] using hinv.2)
  exact hnd2.sublist ((List.take_sublist _ _).map _)

/-- Reading the `"Other"` key never sees a category field: `row.Other` is
the last write, so `mapGet?` at `"Other"` returns exactly the clamped
remainder (with the assigned count expressed through `catFold_snd`). -/
lemma emitRow_get_other (colorBy : AnalyticsColorBy) (tc : List String)
    (a : BatchAggregate) (hc : (colorBy == AnalyticsColorBy.none) = false) :
    mapGet? (P4.emitRow colorBy tc a) "Other"
      = some (JsVal.num (max 0 ((a.total : Int)
          - (((tc.map fun cat => (mapGet? a.categoryCounts cat).getD 0).sum : Nat) : Int)))) := by
  simp only [P4.emitRow]
  rw [if_neg (by simp [hc]), mapGet?_mapSet_self, catFold_snd, Nat.zero_add]

lemma emitRow_get_total (colorBy : AnalyticsColorBy) (tc : List String)
    (a : BatchAggregate) (hc : (colorBy == AnalyticsColorBy.none) = false)
    (ht : "total" ∉ tc) :
    mapGet? (P4.emitRow colorBy tc a) "total" = some (JsVal.num (a.total : Int)) := by
  simp only [P4.emitRow]
  rw [if_neg (by simp [hc]),
    mapGet?_mapSet_ne _ _ (show ("Other" : String) ≠ "total" from by decide),
    catFold_get_notin _ _ _ _ _ ht, mapGet?_cons, if_neg (by decide),
    mapGet?_cons, if_neg (by decide), mapGet?_cons, if_pos (by decide)]

lemma emitRow_get_self (colorBy : AnalyticsColorBy) (tc : List String)
    (htc : tc.Nodup) (a : BatchAggregate)
    (hc : (colorBy == AnalyticsColorBy.none) = false)
    (cat : String) (hcat : cat ∈ tc) (hO : cat ≠ "Other") :
    mapGet? (P4.emitRow colorBy tc a) cat
      = some (JsVal.num (((mapGet? a.categoryCounts cat).getD 0 : Nat) : Int)) := by
  simp only [P4.emitRow]
  rw [if_neg (by simp [hc]), mapGet?_mapSet_ne _ _ (Ne.symm hO),
    catFold_get_mem _ _ htc _ _ _ hcat]

lemma emitRow_get_batch (colorBy : AnalyticsColorBy) (tc : List String)
    (a : BatchAggregate) (hc : (colorBy == AnalyticsColorBy.none) = false)
    (hb : "batch" ∉ tc) :
    mapGet? (P4.emitRow colorBy tc a) "batch" = some (JsVal.str a.batch) := by
  simp only [P4.emitRow]
  rw [if_neg (by simp [hc]),
    mapGet?_mapSet_ne _ _ (show ("Other" : String) ≠ "batch" from by decide),
    catFold_get_notin _ _ _ _ _ hb, mapGet?_cons, if_pos (by decide)]

/-- When none of the selected categories is named `"batch"`, the emitted
row keeps the aggregate's batch label. -/
lemma emitRow_label_batch (colorBy : AnalyticsColorBy) (tc : List String)
    (a : BatchAggregate) (hb : "batch" ∉ tc) :
    rowBatchLabel (P4.emitRow colorBy tc a) = a.batch := by
  cases hc : (colorBy == AnalyticsColorBy.none) with
  | true => simp [P4.emitRow, hc, rowBatchLabel, mapGet?_cons]
  | false => simp only [rowBatchLabel, emitRow_get_batch colorBy tc a hc hb]

/-- A selected category literally named `"batch"` clobbers the row's batch
key with a number, so the emitted row's batch label degrades to `""`. -/
lemma emitRow_label_clobbered (colorBy : AnalyticsColorBy) (tc : List String)
    (a : BatchAggregate) (hc : (colorBy == AnalyticsColorBy.none) = false)
    (htc : tc.Nodup) (hb : "batch" ∈ tc) :
    rowBatchLabel (P4.emitRow colorBy tc a) = "" := by
  simp only [rowBatchLabel,
    emitRow_get_self colorBy tc htc a hc "batch" hb (by decide)]

/-- The row identity of the emitted chart row, valid whenever no selected
category collides with the reserved keys `"total"` and `"Other"`: the
category fields sum with `Other` to the `total` field, and `Other` is
non-negative. -/
lemma emitRow_sum (colorBy : AnalyticsColorBy) (tc : List String)
    (a : BatchAggregate) (hc : (colorBy == AnalyticsColorBy.none) = false)
    (htc : tc.Nodup) (hcats : ∀ cat ∈ tc, cat ≠ "total" ∧ cat ≠ "Other")
    (hsum : sumValues a.categoryCounts = a.total) :
    ((tc.map fun cat => objNum (P4.emitRow colorBy tc a) cat).sum
        + objNum (P4.emitRow colorBy tc a) "Other"
      = objNum (P4.emitRow colorBy tc a) "total") ∧
    0 ≤ objNum (P4.emitRow colorBy tc a) "Other" := by
  have hTot : objNum (P4.emitRow colorBy tc a) "total" = (a.total : Int) := by
    simp only [objNum, emitRow_get_total colorBy tc a hc (fun h => (hcats _ h).1 rfl)]
  have hOth : objNum (P4.emitRow colorBy tc a) "Other"
      = max 0 ((a.total : Int)
        - (((tc.map fun cat => (mapGet? a.categoryCounts cat).getD 0).sum : Nat) : Int)) := by
    simp only [objNum, emitRow_get_other colorBy tc a hc]
  have hEach : ∀ cat ∈ tc, objNum (P4.emitRow colorBy tc a) cat
      = (((mapGet? a.categoryCounts cat).getD 0 : Nat) : Int) := by
    intro cat hcat
    simp only [objNum,
      emitRow_get_self colorBy tc htc a hc cat hcat (hcats _ hcat).2]
  have hSum : (tc.map fun cat => objNum (P4.emitRow colorBy tc a) cat).sum
      = (((tc.map fun cat => (mapGet? a.categoryCounts cat).getD 0).sum : Nat) : Int) := by
    rw [List.map_congr_left hEach]
    exact sum_map_intCast _ tc
  have hle : (tc.map fun cat => (mapGet? a.categoryCounts cat).getD 0).sum ≤ a.total := by
    rw [← hsum]
    exact sum_lookup_le tc htc a.categoryCounts
  rw [hTot, hOth, hSum]
  refine ⟨?_, le_max_left 0 _⟩
  omega

/-- A store holding one W21 company tagged `["ai"]` and no embeddings. -/
def analyticsDb : DB :=
  ⟨[{ blankCompany with id := 1, batch := some "W21", tags := ["ai"] }], []⟩

/-- Blank-query, first-page analytics parameters with the empty filter
set. -/
def analyticsParams : P4.SearchParams :=
  { query := "", page := 1, pageSize := 10, sort := .relevance,
    filters := sampleP4Filters }

/-! ### Claim theorems: C4 -/

/-- A store with two W21 companies whose first tags are `"total"` and
`"x"`: with `topN = 1` the single selected category is literally named
`"total"`. -/
def clobberDb : DB :=
  ⟨[{ blankCompany with id := 1, batch := some "W21", tags := ["total"] },
    { blankCompany with id := 2, batch := some "W21", tags := ["x"] }], []⟩

/-- The single chart row `getBatchAnalytics` emits for `clobberDb` with
`colorBy = tags` and `topN = 1`: the write `row["total"] = 1` has clobbered
the batch total 2. -/
def clobberRow : JsObj :=
  [("batch", JsVal.str "W21"), ("year", JsVal.num 2021),
   ("total", JsVal.num 1), ("Other", JsVal.num 1)]

unseal List.mergeSort List.merge in
/-- Counterexample for C4 as stated: with two W21 companies first-tagged
`"total"` and `"x"` and `topN = 1`, the selected category is named
`"total"`, so the loop's `row["total"] = 1` clobbers the row's total field
(batch total 2); the emitted row reads `total = 1` yet its category fields
plus `Other` sum to `2` — the claimed row identity fails on the code. -/
theorem getBatchAnalytics_reserved_key_counterexample :
    ((P4.getBatchAnalytics clobberDb analyticsParams .tags 1 Option.none).rows
        = [clobberRow]) ∧
    ((P4.getBatchAnalytics clobberDb analyticsParams .tags 1 Option.none).series
        = ["total", "Other"]) ∧
    ¬ (((P4.getBatchAnalytics clobberDb analyticsParams
            .tags 1 Option.none).series.dropLast.map
          fun cat => objNum clobberRow cat).sum + objNum clobberRow "Other"
        = objNum clobberRow "total") := by
  refine ⟨by decide, by decide, by decide⟩

/-- Claim C4, amended: for every `getBatchAnalytics` call with an active
color dimension, PROVIDED no selected top category is literally named
`"total"` or `"Other"`, every returned batch row satisfies: the per-category
numeric fields sum with the `Other` field to the row's `total` field, and
`Other` is never negative. (Without the proviso the identity fails: the
source writes `row[category] = value` into the same string-keyed object
that holds `batch`, `year` and `total`, so a category named `"total"` or
`"Other"` clobbers those keys.) -/
theorem getBatchAnalytics_other_amended :
    ∀ (db : DB) (params : P4.SearchParams) (colorBy : AnalyticsColorBy)
      (topN : Nat) (subset : Option (List Int)),
      colorBy ≠ .none →
      (∀ cat ∈ (P4.getBatchAnalytics db params colorBy topN subset).series.dropLast,
        cat ≠ "total" ∧ cat ≠ "Other") →
      ∀ row ∈ (P4.getBatchAnalytics db params colorBy topN subset).rows,
        (((P4.getBatchAnalytics db params colorBy topN subset).series.dropLast.map
            fun cat => objNum row cat).sum + objNum row "Other"
          = objNum row "total") ∧
        0 ≤ objNum row "Other" := by
  intro db params colorBy topN subset hcb hcats row hrow
  have hc : (colorBy == AnalyticsColorBy.none) = false := by
    cases colorBy <;> simp_all
  have htc := topCategories_nodup colorBy (P4.analyticsRows db params subset) topN
  have hser : (P4.getBatchAnalytics db params colorBy topN subset).series.dropLast
      = (((((P4.analyticsRows db params subset).foldl (analyticsStep colorBy)
        ([], [])).2.mergeSort fun l r => decide (r.2 ≤ l.2)).take topN).map (·.1)) := by
    simp only [P4.getBatchAnalytics, hc, Bool.false_eq_true, if_false]
    exact List.dropLast_concat
  have hrows : (P4.getBatchAnalytics db params colorBy topN subset).rows
      = ((((P4.analyticsRows db params subset).foldl (analyticsStep colorBy)
          ([], [])).1.map (·.2)).mergeSort aggLe).map
        (P4.emitRow colorBy
          (((((P4.analyticsRows db params subset).foldl (analyticsStep colorBy)
            ([], [])).2.mergeSort fun l r => decide (r.2 ≤ l.2)).take topN).map (·.1))) := by
    simp only [P4.getBatchAnalytics, hc, Bool.false_eq_true, if_false]
  rw [hser] at hcats
  rw [hrows] at hrow
  obtain ⟨a, ha, rfl⟩ := List.mem_map.mp hrow
  have hinv := analytics_fold_inv colorBy (P4.analyticsRows db params subset) ([], [])
    (by intro q hq; simp at hq) (by simp [mapKeys])
  have ha' := (List.mergeSort_perm _ aggLe).mem_iff.mp ha
  obtain ⟨q, hq, hqa⟩ := List.mem_map.mp ha'
  have hsum : sumValues a.categoryCounts = a.total :=
    hqa ▸ ((hinv.1 q hq).2.2.2.2 hcb)
  rw [hser]
  exact emitRow_sum colorBy _ a hc htc hcats hsum

unseal List.mergeSort List.merge in
/-- Witness for the amended C4 on a concrete store: one W21 company tagged
`"ai"`, `colorBy = tags`, `topN = 1` — the selected category `"ai"` avoids
the reserved keys and the row identity holds. -/
theorem getBatchAnalytics_other_amended_witness :
    AnalyticsColorBy.tags ≠ AnalyticsColorBy.none ∧
    (∀ row ∈ (P4.getBatchAnalytics analyticsDb analyticsParams
        .tags 1 Option.none).rows,
      (((P4.getBatchAnalytics analyticsDb analyticsParams
            .tags 1 Option.none).series.dropLast.map
          fun cat => objNum row cat).sum + objNum row "Other"
        = objNum row "total") ∧
      0 ≤ objNum row "Other") :=
  ⟨by decide,
    getBatchAnalytics_other_amended analyticsDb analyticsParams
      AnalyticsColorBy.tags 1 Option.none (by decide) (by decide)⟩

/-! ### Claim theorems: C5 -/

/-- Modelled from the spec: the single chronological season scale claim C5
asserts — Winter < Spring < Summer < Fall — applied uniformly to both label
forms, reading the compact seasons as W = Winter (1), S = Summer (3),
F = Fall (4); named labels as Winter 1, Spring 2, Summer 3, Fall 4. -/
def claimSeasonKey (batch : String) : BatchKey :=
  match batch.toList with
  | [c, d1, d2] =>
    if isCompactSeason c && d1.isDigit && d2.isDigit then
      { year := some (2000 + digitsVal [d1, d2])
        seasonOrder := if c.toUpper == 'W' then 1 else if c.toUpper == 'S' then 3 else 4 }
    else { year := Option.none, seasonOrder := 99 }
  | cs =>
    let lower := cs.map Char.toLower
    let namedKey (season : String) (ord : Int) : Option BatchKey :=
      if startsWith season.toList lower then
        let rest := lower.drop season.length
        let ws := rest.takeWhile Char.isWhitespace
        let digits := rest.drop ws.length
        if ws.length > 0 && digits.length == 4 && digits.all Char.isDigit then
          some { year := some (digitsVal (cs.drop (season.length + ws.length))),
                 seasonOrder := ord }
        else Option.none
      else Option.none
    (((namedKey "winter" 1).orElse fun _ => (namedKey "spring" 2).orElse fun _ =>
      (namedKey "summer" 3).orElse fun _ => namedKey "fall" 4).getD
      { year := Option.none, seasonOrder := 99 })

unseal List.mergeSort List.merge in
/-- Counterexample for C5 as stated: with batches `"F21"` and
`"Summer 2021"` in the corpus, the code emits `"F21"` first (both parse to
the code key `(2021, 3)`, and the tie breaks lexically), although under the
claim's uniform season scale `"Summer 2021"` (Summer, order 3) is strictly
chronologically earlier than `"F21"` (Fall, order 4) in the same year — the
rows are not in the claim's chronological order. -/
theorem batch_order_cross_form_counterexample :
    ((P4.getBatchAnalytics
      ⟨[{ blankCompany with id := 1, batch := some "Summer 2021" },
        { blankCompany with id := 2, batch := some "F21" }], []⟩
      analyticsParams .none 8 Option.none).rows.map rowBatchLabel)
        = ["F21", "Summer 2021"] ∧
    (claimSeasonKey "F21").year = (claimSeasonKey "Summer 2021").year ∧
    (claimSeasonKey "Summer 2021").seasonOrder <
      (claimSeasonKey "F21").seasonOrder := by
  refine ⟨by decide, by decide, by decide⟩

/-- Lexicographic order on `(sentinel year, season order, label)` triples. -/
def lexKeyLe (x y : Int × Int × String) : Prop :=
  x.1 < y.1 ∨ (x.1 = y.1 ∧ (x.2.1 < y.2.1 ∨
    (x.2.1 = y.2.1 ∧ charListLe x.2.2.toList y.2.2.toList = true)))

/-- The sort key of a batch aggregate, as compared by the code. -/
def aggKey (a : BatchAggregate) : Int × Int × String :=
  (a.year.getD maxSafeInteger, a.seasonOrder, a.batch)

/-- The chronological order on batch labels actually implemented:
`batchSortKey` year (missing years last via the sentinel), then the code's
season order, then the label text. -/
def batchKeyLe (b1 b2 : String) : Prop :=
  lexKeyLe ((batchSortKey b1).year.getD maxSafeInteger, (batchSortKey b1).seasonOrder, b1)
    ((batchSortKey b2).year.getD maxSafeInteger, (batchSortKey b2).seasonOrder, b2)

lemma charListLe_trans : ∀ x y z : List Char,
    charListLe x y = true → charListLe y z = true → charListLe x z = true := by
  intro x
  induction x with
  | nil => intro y z _ _; simp [charListLe]
  | cons c cs ih =>
    intro y z h1 h2
    cases y with
    | nil => simp [charListLe] at h1
    | cons d ds =>
      cases z with
      | nil => simp [charListLe] at h2
      | cons e es =>
        simp only [charListLe] at h1 h2 ⊢
        by_cases hcd : c = d
        · subst hcd
          rw [if_pos rfl] at h1
          by_cases hde : c = e
          · subst hde
            rw [if_pos rfl] at h2 ⊢
            exact ih ds es h1 h2
          · rw [if_neg hde] at h2 ⊢
            exact h2
        · rw [if_neg hcd] at h1
          by_cases hde : d = e
          · subst hde
            rw [if_neg hcd]
            exact h1
          · rw [if_neg hde] at h2
            have h1' := of_decide_eq_true h1
            have h2' := of_decide_eq_true h2
            have hce : c ≠ e := by
              intro h
              subst h
              exact absurd (lt_trans h1' h2') (lt_irrefl c)
            rw [if_neg hce]
            exact decide_eq_true (lt_trans h1' h2')

lemma charListLe_total : ∀ x y : List Char,
    (charListLe x y || charListLe y x) = true := by
  intro x
  induction x with
  | nil => intro y; simp [charListLe]
  | cons c cs ih =>
    intro y
    cases y with
    | nil => simp [charListLe]
    | cons d ds =>
      simp only [charListLe]
      by_cases hcd : c = d
      · subst hcd
        rw [if_pos rfl, if_pos rfl]
        exact ih ds
      · rw [if_neg hcd, if_neg (fun h => hcd h.symm)]
        rcases lt_trichotomy c d with h | h | h
        · simp [h]
        · exact absurd h hcd
        · simp [h]

lemma aggLe_iff (a b : BatchAggregate) :
    aggLe a b = true ↔ lexKeyLe (aggKey a) (aggKey b) := by
  rw [aggLe, lexKeyLe, aggKey, aggKey]
  simp only
  by_cases h1 : a.year.getD maxSafeInteger = b.year.getD maxSafeInteger
  · rw [if_neg (by simpa using h1)]
    by_cases h2 : a.seasonOrder = b.seasonOrder
    · rw [if_neg (by simpa using h2)]
      constructor
      · intro h
        exact Or.inr ⟨h1, Or.inr ⟨h2, h⟩⟩
      · rintro (h | ⟨_, h | ⟨_, h⟩⟩)
        · omega
        · omega
        · exact h
    · rw [if_pos (by simpa using h2), decide_eq_true_eq]
      constructor
      · intro h
        exact Or.inr ⟨h1, Or.inl h⟩
      · rintro (h | ⟨_, h | ⟨h, _⟩⟩)
        · omega
        · exact h
        · omega
  · rw [if_pos (by simpa using h1), decide_eq_true_eq]
    constructor
    · intro h
      exact Or.inl h
    · rintro (h | ⟨h, _⟩)
      · exact h
      · omega

lemma lexKeyLe_trans {x y z : Int × Int × String}
    (h1 : lexKeyLe x y) (h2 : lexKeyLe y z) : lexKeyLe x z := by
  rcases h1 with h1 | ⟨e1, h1'⟩
  · rcases h2 with h2 | ⟨e2, _⟩
    · exact Or.inl (by omega)
    · exact Or.inl (by omega)
  · rcases h2 with h2 | ⟨e2, h2'⟩
    · exact Or.inl (by omega)
    · refine Or.inr ⟨by omega, ?_⟩
      rcases h1' with h1' | ⟨f1, g1⟩
      · rcases h2' with h2' | ⟨f2, _⟩
        · exact Or.inl (by omega)
        · exact Or.inl (by omega)
      · rcases h2' with h2' | ⟨f2, g2⟩
        · exact Or.inl (by omega)
        · exact Or.inr ⟨by omega, charListLe_trans _ _ _ g1 g2⟩

lemma lexKeyLe_total (x y : Int × Int × String) :
    lexKeyLe x y ∨ lexKeyLe y x := by
  rcases lt_trichotomy x.1 y.1 with h | h | h
  · exact Or.inl (Or.inl h)
  · rcases lt_trichotomy x.2.1 y.2.1 with h' | h' | h'
    · exact Or.inl (Or.inr ⟨h, Or.inl h'⟩)
    · rcases Bool.or_eq_true_iff.mp (charListLe_total x.2.2.toList y.2.2.toList)
        with h'' | h''
      · exact Or.inl (Or.inr ⟨h, Or.inr ⟨h', h''⟩⟩)
      · exact Or.inr (Or.inr ⟨h.symm, Or.inr ⟨h'.symm, h''⟩⟩)
    · exact Or.inr (Or.inr ⟨h.symm, Or.inl h'⟩)
  · exact Or.inr (Or.inl h)

lemma aggLe_trans (a b c : BatchAggregate) :
    aggLe a b → aggLe b c → aggLe a c := fun h1 h2 =>
  (aggLe_iff a c).mpr (lexKeyLe_trans ((aggLe_iff a b).mp h1) ((aggLe_iff b c).mp h2))

lemma aggLe_total (a b : BatchAggregate) : (aggLe a b || aggLe b a) = true := by
  rcases lexKeyLe_total (aggKey a) (aggKey b) with h | h
  · simp [(aggLe_iff a b).mpr h]
  · simp [(aggLe_iff b a).mpr h]

lemma sortedBatches_pairwise (colorBy : AnalyticsColorBy) (rows0 : List Company) :
    ((((rows0.foldl (analyticsStep colorBy) ([], [])).1.map (·.2)).mergeSort
      aggLe)).Pairwise fun a b => batchKeyLe a.batch b.batch := by
  have hinv := analytics_fold_inv colorBy rows0 ([], [])
    (by intro q hq; simp at hq) (by simp [mapKeys])
  have hsorted := List.sorted_mergeSort aggLe_trans aggLe_total
    ((rows0.foldl (analyticsStep colorBy) ([], [])).1.map (·.2))
  refine List.Pairwise.imp_of_mem ?_ hsorted
  intro a b ha hb hab
  have hfields : ∀ x,
      x ∈ (((rows0.foldl (analyticsStep colorBy) ([], [])).1.map (·.2)).mergeSort aggLe) →
      x.year = (batchSortKey x.batch).year ∧
        x.seasonOrder = (batchSortKey x.batch).seasonOrder := by
    intro x hx
    have hx' := (List.mergeSort_perm _ aggLe).mem_iff.mp hx
    obtain ⟨q, hq, hqx⟩ := List.mem_map.mp hx'
    subst hqx
    have hi := hinv.1 q hq
    refine ⟨?_, ?_⟩
    · rw [hi.1]
      exact hi.2.1
    · rw [hi.1]
      exact hi.2.2.1
  obtain ⟨hay, has⟩ := hfields a ha
  obtain ⟨hby, hbs⟩ := hfields b hb
  have hlex := (aggLe_iff a b).mp hab
  rw [batchKeyLe]
  rw [aggKey, aggKey] at hlex
  rw [hay, has] at hlex
  rw [hby, hbs] at hlex
  exact hlex

/-- Claim C5, amended: `getBatchAnalytics` emits its rows sorted by the
implemented chronological key — `batchSortKey` year with missing years last
via the `MAX_SAFE_INTEGER` sentinel, then the code's season order (compact
form W < S < F as 1 < 2 < 3; named form Winter < Spring < Summer < Fall as
1 < 2 < 3 < 4 — the two scales are NOT aligned across forms), with ties
broken by label text order. -/
theorem getBatchAnalytics_order_amended :
    ∀ (db : DB) (params : P4.SearchParams) (colorBy : AnalyticsColorBy)
      (topN : Nat) (subset : Option (List Int)),
      ((P4.getBatchAnalytics db params colorBy topN subset).rows).Pairwise
        fun r1 r2 => batchKeyLe (rowBatchLabel r1) (rowBatchLabel r2) := by
  intro db params colorBy topN subset
  have hcore := sortedBatches_pairwise colorBy (P4.analyticsRows db params subset)
  simp only [P4.getBatchAnalytics]
  rw [List.pairwise_map]
  cases hc : (colorBy == AnalyticsColorBy.none) with
  | true =>
    refine hcore.imp ?_
    intro a b h
    rw [if_pos rfl, emitRow_label_batch colorBy [] a (by simp),
      emitRow_label_batch colorBy [] b (by simp)]
    exact h
  | false =>
    have htc := topCategories_nodup colorBy (P4.analyticsRows db params subset) topN
    by_cases hb : "batch" ∈
        (((((P4.analyticsRows db params subset).foldl (analyticsStep colorBy)
          ([], [])).2.mergeSort fun l r => decide (r.2 ≤ l.2)).take topN).map (·.1))
    · refine hcore.imp ?_
      intro a b _
      rw [if_neg Bool.false_ne_true,
        emitRow_label_clobbered colorBy _ a hc htc hb,
        emitRow_label_clobbered colorBy _ b hc htc hb]
      exact Or.inr ⟨rfl, Or.inr ⟨rfl, rfl⟩⟩
    · refine hcore.imp ?_
      intro a b h
      rw [if_neg Bool.false_ne_true,
        emitRow_label_batch colorBy _ a hb, emitRow_label_batch colorBy _ b hb]
      exact h
